import Mathlib

/-
Verification of the ruckig trajectory planner core (patch-cpp11 variant).

Shallow embedding of `include/ruckig/block.hpp` and
`include/ruckig/trajectory.hpp` over exact rational arithmetic.  Doubles
are modelled as rationals; the IEEE value `+infinity` (used by the
synchronizer for absent interval bounds and absent duration floors) is
modelled by the top element of `WithTop Rat`.  The machine epsilon
`std::numeric_limits<double>::epsilon()` is an explicit parameter `eps`.

The numerical sub-solvers that live in files outside the extracted
sources (brake.hpp/brake.cpp, position.hpp, velocity.hpp, profile.hpp:
Step 1 root enumeration, Step 2 re-solving, brake computation, the
profile validity check used by phase synchronization) are abstracted as
oracle parameters of `calculate`; the control flow of
`Trajectory::synchronize`, `Trajectory::calculate`,
`Trajectory::at_time` and everything in `block.hpp` is embedded
faithfully.
-/

namespace Ruckig

/-- Sign of the leading jerk of a profile (Profile::Direction). -/
inductive Direction
  | UP
  | DOWN
deriving DecidableEq

/-- Jerk sign pattern of the seven segments (Profile::JerkSigns). -/
inductive JerkSigns
  | UDDU
  | UDUD
deriving DecidableEq

/-- Which kinematic bounds the profile saturates (Profile::Limits). -/
inductive Limits
  | NONE
  | ACC0
  | ACC1
  | VEL
  | ACC0_ACC1
  | ACC0_VEL
  | ACC1_VEL
  | ACC0_ACC1_VEL
deriving DecidableEq

/-- Control interface of a degree of freedom (ControlInterface). -/
inductive ControlInterface
  | Position
  | Velocity
deriving DecidableEq

/-- Synchronization behavior of a degree of freedom (Synchronization). -/
inductive Synchronization
  | Time
  | TimeIfNecessary
  | Phase
  | None
deriving DecidableEq

/-- Duration discretization mode (DurationDiscretization). -/
inductive DurationDiscretization
  | Continuous
  | Discrete
deriving DecidableEq

/-- Result code of a calculation (Result). -/
inductive Result
  | Working
  | Error
  | ErrorExecutionTimeCalculation
  | ErrorSynchronizationCalculation
  | ErrorTrajectoryDuration
deriving DecidableEq

/-- The brake pre-trajectory attached to a profile (BrakeProfile): up to two
constant-jerk segments with their entry samples and the total duration. -/
structure BrakeProfile where
  duration : ℚ
  t : Fin 2 → ℚ
  j : Fin 2 → ℚ
  p : Fin 2 → ℚ
  v : Fin 2 → ℚ
  a : Fin 2 → ℚ

instance : Inhabited BrakeProfile :=
  ⟨⟨0, fun _ => 0, fun _ => 0, fun _ => 0, fun _ => 0, fun _ => 0⟩⟩

/-- The seven-segment jerk profile of one degree of freedom (Profile):
segment durations `t`, their running sums `t_sum`, per-segment jerks `j`,
per-segment entry samples `p`, `v`, `a`, terminal samples `pf`, `vf`, `af`,
the brake pre-trajectory, and the classification tags. -/
structure Profile where
  t : Fin 7 → ℚ
  t_sum : Fin 7 → ℚ
  j : Fin 7 → ℚ
  p : Fin 7 → ℚ
  v : Fin 7 → ℚ
  a : Fin 7 → ℚ
  pf : ℚ
  vf : ℚ
  af : ℚ
  brake : BrakeProfile
  direction : Direction
  jerk_signs : JerkSigns
  limits : Limits

instance : Inhabited Profile :=
  ⟨⟨fun _ => 0, fun _ => 0, fun _ => 0, fun _ => 0, fun _ => 0, fun _ => 0,
    0, 0, 0, default, Direction.UP, JerkSigns.UDDU, Limits.NONE⟩⟩

/-- Total motion time of a profile: `t_sum[6] + brake.duration`. -/
def Profile.totalDuration (p : Profile) : ℚ :=
  p.t_sum 6 + p.brake.duration

/-- Modelled from the spec: `Profile::integrate` lives in profile.hpp which is
not among the extracted sources.  Spec 4.8 gives the integration of a single
constant-jerk segment over duration `τ`. -/
def Profile.integrate (τ p v a j : ℚ) : ℚ × ℚ × ℚ :=
  (p + v * τ + a * τ ^ 2 / 2 + j * τ ^ 3 / 6,
   v + a * τ + j * τ ^ 2 / 2,
   a + j * τ)

/-- A forbidden duration interval of a Block (Block::Interval): open interval
`(left, right)` with the profile corresponding to the right (end) time. -/
structure Interval where
  left : ℚ
  right : ℚ
  profile : Profile

instance : Inhabited Interval := ⟨⟨0, 0, default⟩⟩

/-- Per-DoF record of the fastest profile and up to two forbidden duration
intervals (Block). -/
structure Block where
  p_min : Profile
  t_min : ℚ
  a : Option Interval
  b : Option Interval

instance : Inhabited Block := ⟨⟨default, 0, none, none⟩⟩

/-- The single-profile Block constructor `Block(const Profile& p_min)`:
`t_min = p_min.t_sum[6] + p_min.brake.duration`, no forbidden intervals. -/
def Block.ofProfile (p : Profile) : Block :=
  ⟨p, p.t_sum 6 + p.brake.duration, none, none⟩

/-- `Block::add_interval`: orders two profiles by total duration and builds the
forbidden interval between them, storing the slower profile.  The C++ version
assigns into an optional out-parameter; here the built interval is returned. -/
def Block.add_interval (left right : Profile) : Interval :=
  let left_duration := left.t_sum 6 + left.brake.duration
  let right_duration := right.t_sum 6 + right.brake.duration
  if left_duration < right_duration then
    ⟨left_duration, right_duration, right⟩
  else
    ⟨right_duration, left_duration, left⟩

/-- Strict membership of a time in an optional forbidden interval, as used by
`Block::is_blocked`.  The time is a possibly-infinite double. -/
def intervalHas (I : Option Interval) (t : WithTop ℚ) : Bool :=
  match I with
  | Option.none => false
  | Option.some I => decide ((I.left : WithTop ℚ) < t) && decide (t < (I.right : WithTop ℚ))

/-- `Block::is_blocked(t)`: `t < t_min`, or `t` strictly inside interval `a`,
or strictly inside interval `b`. -/
def Block.is_blocked (bl : Block) (t : WithTop ℚ) : Bool :=
  decide (t < (bl.t_min : WithTop ℚ)) || intervalHas bl.a t || intervalHas bl.b t

/-- The `valid_profile_counter == 3` branch of `Block::calculate_block`
(also reached from the 4-profile collapse): `std::min_element` with a strict
comparison on `t_sum[6]` picks the first fastest profile, the other two (in
cyclic order after it) form the single forbidden interval. -/
def assemble3 (p0 p1 p2 : Profile) : Option Block :=
  let ps : Fin 3 → Profile := ![p0, p1, p2]
  let m1 : Fin 3 := if p1.t_sum 6 < p0.t_sum 6 then 1 else 0
  let m : Fin 3 := if p2.t_sum 6 < (ps m1).t_sum 6 then 2 else m1
  Option.some { Block.ofProfile (ps m) with
                a := Option.some (Block.add_interval (ps (m + 1)) (ps (m + 2))) }

/-- The `valid_profile_counter == 5` branch of `Block::calculate_block`:
first fastest profile is `p_min`; the remaining four (cyclically after it)
are paired by matching direction when the first two share it, otherwise by
outer/inner pairing. -/
def assemble5 (p0 p1 p2 p3 p4 : Profile) : Option Block :=
  let ps : Fin 5 → Profile := ![p0, p1, p2, p3, p4]
  let m1 : Fin 5 := if p1.t_sum 6 < p0.t_sum 6 then 1 else 0
  let m2 : Fin 5 := if p2.t_sum 6 < (ps m1).t_sum 6 then 2 else m1
  let m3 : Fin 5 := if p3.t_sum 6 < (ps m2).t_sum 6 then 3 else m2
  let m : Fin 5 := if p4.t_sum 6 < (ps m3).t_sum 6 then 4 else m3
  if (ps (m + 1)).direction = (ps (m + 2)).direction then
    Option.some { Block.ofProfile (ps m) with
                  a := Option.some (Block.add_interval (ps (m + 1)) (ps (m + 2))),
                  b := Option.some (Block.add_interval (ps (m + 3)) (ps (m + 4))) }
  else
    Option.some { Block.ofProfile (ps m) with
                  a := Option.some (Block.add_interval (ps (m + 1)) (ps (m + 4))),
                  b := Option.some (Block.add_interval (ps (m + 2)) (ps (m + 3))) }

/-- `Block::calculate_block`: assemble a Block from the list of valid profiles
found by Step 1.  `eps` stands for `std::numeric_limits<double>::epsilon()`,
`robust` for the `numerical_robust` template parameter.  The C++ function
writes into an out-parameter and returns a bool; returning `false` is
modelled as `Option.none` (the partially-written Block is never read by
callers on failure). -/
def Block.calculate_block (eps : ℚ) (robust : Bool) (ps : List Profile) : Option Block :=
  match ps with
  | [p0] => Option.some (Block.ofProfile p0)
  | [p0, p1] =>
    if |p0.t_sum 6 - p1.t_sum 6| < 8 * eps then
      Option.some (Block.ofProfile p0)
    else if robust then
      let pm := if p0.t_sum 6 < p1.t_sum 6 then p0 else p1
      let pe := if p0.t_sum 6 < p1.t_sum 6 then p1 else p0
      Option.some { Block.ofProfile pm with a := Option.some (Block.add_interval pm pe) }
    else
      Option.none
  | [p0, p1, p2, p3] =>
    if |p0.t_sum 6 - p1.t_sum 6| < 32 * eps ∧ p0.direction ≠ p1.direction then
      assemble3 p0 p2 p3
    else if |p2.t_sum 6 - p3.t_sum 6| < 256 * eps ∧ p2.direction ≠ p3.direction then
      assemble3 p0 p1 p2
    else if |p0.t_sum 6 - p3.t_sum 6| < 256 * eps ∧ p0.direction ≠ p3.direction then
      assemble3 p0 p1 p2
    else
      Option.none
  | [p0, p1, p2] => assemble3 p0 p1 p2
  | [p0, p1, p2, p3, p4] => assemble5 p0 p1 p2 p3 p4
  | _ => Option.none

/-! ## The synchronizer (`Trajectory::synchronize`) -/

/-- The raw candidate value at index `i` of the `possible_t_syncs` array:
indices `0..n-1` hold the per-DoF `t_min`, `n..2n-1` the right ends of the
`a` intervals (or `+infinity`), `2n..3n-1` those of the `b` intervals, and
index `3n` the optional minimum duration (or `+infinity`). -/
def candRaw (blocks : List Block) (t_min : Option ℚ) (i : ℕ) : WithTop ℚ :=
  let n := blocks.length
  if i < n then ((blocks.getD i default).t_min : WithTop ℚ)
  else if i < 2 * n then
    match (blocks.getD (i - n) default).a with
    | Option.some I => (I.right : WithTop ℚ)
    | Option.none => ⊤
  else if i < 3 * n then
    match (blocks.getD (i - 2 * n) default).b with
    | Option.some I => (I.right : WithTop ℚ)
    | Option.none => ⊤
  else
    match t_min with
    | Option.some f => (f : WithTop ℚ)
    | Option.none => ⊤

/-- Rounding a candidate up to the next multiple of `delta_time`
(`std::ceil(x / delta_time) * delta_time`); infinity stays infinite. -/
def roundUp (delta_time : ℚ) (x : WithTop ℚ) : WithTop ℚ :=
  x.map fun q => (⌈q / delta_time⌉ : ℚ) * delta_time

/-- Entry `i` of `possible_t_syncs` after the optional discretization pass. -/
def possibleTSync (blocks : List Block) (t_min : Option ℚ) (discrete : Bool)
    (delta_time : ℚ) (i : ℕ) : WithTop ℚ :=
  if discrete then roundUp delta_time (candRaw blocks t_min i)
  else candRaw blocks t_min i

/-- The candidate array together with its indices, mirroring the pair of
arrays `possible_t_syncs` and `idx`. -/
def candList (blocks : List Block) (t_min : Option ℚ) (discrete : Bool)
    (delta_time : ℚ) : List (ℕ × WithTop ℚ) :=
  (List.range (3 * blocks.length + 1)).map
    fun i => (i, possibleTSync blocks t_min discrete delta_time i)

/-- The candidate values examined by the synchronizer. -/
def candValues (blocks : List Block) (t_min : Option ℚ) (discrete : Bool)
    (delta_time : ℚ) : List (WithTop ℚ) :=
  (candList blocks t_min discrete delta_time).map Prod.snd

/-- `any_interval`: some DoF has a forbidden interval, or a minimum duration
was given.  When false, only the first `n` candidates (the `t_min`s) are
sorted and scanned. -/
def anyInterval (blocks : List Block) (t_min : Option ℚ) : Bool :=
  blocks.any (fun bl => bl.a.isSome || bl.b.isSome) || t_min.isSome

/-- Acceptance test of the scan loop: the candidate is not blocked for any
DoF and not below the duration floor (`t_min.value_or(0.0)`). -/
def okCand (blocks : List Block) (t_min : Option ℚ) (v : WithTop ℚ) : Bool :=
  !(blocks.any fun bl => bl.is_blocked v) && decide (((t_min.getD 0 : ℚ) : WithTop ℚ) ≤ v)

/-- Comparison used to sort candidate indices by candidate value. -/
def candLE (x y : ℕ × WithTop ℚ) : Prop := x.2 ≤ y.2

instance : DecidableRel candLE := fun x y => inferInstanceAs (Decidable (x.2 ≤ y.2))

instance : IsTotal (ℕ × WithTop ℚ) candLE := ⟨fun x y => le_total x.2 y.2⟩

instance : IsTrans (ℕ × WithTop ℚ) candLE := ⟨fun _ _ _ => le_trans⟩

/-- The sort-and-scan loop of `Trajectory::synchronize`: sort the candidate
indices by value (`std::sort` is modelled by insertion sort; any sorted
permutation yields the same scan outcome up to ties in the index), skip the
first `n - 1` entries (the scan starts at the last `t_min`, index
`degrees_of_freedom - 1` of the sorted order), and return the first
candidate passing the acceptance test. -/
def syncScan (blocks : List Block) (t_min : Option ℚ) (discrete : Bool)
    (delta_time : ℚ) : Option (ℕ × WithTop ℚ) :=
  ((((if anyInterval blocks t_min then candList blocks t_min discrete delta_time
      else (candList blocks t_min discrete delta_time).take
        blocks.length).insertionSort candLE).drop
    (blocks.length - 1)).find? fun x => okCand blocks t_min x.2)

/-- `Trajectory::synchronize`: selects the synchronized duration.  Returns
the chosen candidate value and its index in `possible_t_syncs` (from which
the caller derives `limiting_dof` and the profile slot); `Option.none` is the
`return false` case.  The fast path handles a single DoF without floor and
without discretization. -/
def synchronize (blocks : List Block) (t_min : Option ℚ) (discrete : Bool)
    (delta_time : ℚ) : Option (WithTop ℚ × ℕ) :=
  let n := blocks.length
  if n = 1 ∧ t_min = Option.none ∧ discrete = false then
    Option.some (((blocks.getD 0 default).t_min : WithTop ℚ), 0)
  else
    match syncScan blocks t_min discrete delta_time with
    | Option.some x => Option.some (x.2, x.1)
    | Option.none => Option.none

/-! ## The trajectory facade (`Trajectory::calculate`, `Trajectory::at_time`)

The numerical sub-solvers live in files that are not part of the extracted
sources (brake.hpp/brake.cpp, position.hpp, velocity.hpp, profile.hpp); they
are abstracted as oracle functions.  Each oracle additionally receives the
DoF index so that "no computation is performed for a DoF" can be stated as
independence from the oracle's behaviour at that index. -/

/-- The per-DoF kinematic arguments handed to the sub-solvers. -/
structure KinematicArgs where
  p0 : ℚ
  v0 : ℚ
  a0 : ℚ
  pf : ℚ
  vf : ℚ
  af : ℚ
  vMax : ℚ
  vMin : ℚ
  aMax : ℚ
  aMin : ℚ
  jMax : ℚ

/-- Abstracted sub-solvers: brake computation
(`BrakeProfile::get_position_brake_trajectory` /
`get_velocity_brake_trajectory` write `brake.t` and `brake.j`), Step 1
(`PositionStep1::get_profile` / `VelocityStep1::get_profile`), Step 2
(`PositionStep2::get_profile` / `VelocityStep2::get_profile`), and the
profile validity check of the phase-synchronization path (`set_boundary`
plus `check_with_timing`, returning the updated profile and the check
outcome). -/
structure Oracles where
  brakePos : ℕ → ℚ → ℚ → ℚ → ℚ → ℚ → ℚ → ℚ → (Fin 2 → ℚ) × (Fin 2 → ℚ)
  brakeVel : ℕ → ℚ → ℚ → ℚ → ℚ → (Fin 2 → ℚ) × (Fin 2 → ℚ)
  step1Pos : ℕ → KinematicArgs → Profile → Option (Profile × Block)
  step1Vel : ℕ → KinematicArgs → Profile → Option (Profile × Block)
  step2Pos : ℕ → WithTop ℚ → KinematicArgs → Profile → Option Profile
  step2Vel : ℕ → WithTop ℚ → KinematicArgs → Profile → Option Profile
  checkPhase : ℕ → WithTop ℚ → ℚ → KinematicArgs → Profile → Profile × Bool

/-- The planner input (InputParameter), arrays indexed by DoF. -/
structure InputParameter (n : ℕ) where
  enabled : Fin n → Bool
  control_interface : ControlInterface
  synchronization : Synchronization
  per_dof_control_interface : Option (Fin n → ControlInterface)
  per_dof_synchronization : Option (Fin n → Synchronization)
  current_position : Fin n → ℚ
  current_velocity : Fin n → ℚ
  current_acceleration : Fin n → ℚ
  target_position : Fin n → ℚ
  target_velocity : Fin n → ℚ
  target_acceleration : Fin n → ℚ
  max_velocity : Fin n → ℚ
  min_velocity : Option (Fin n → ℚ)
  max_acceleration : Fin n → ℚ
  min_acceleration : Option (Fin n → ℚ)
  max_jerk : Fin n → ℚ
  minimum_duration : Option ℚ
  duration_discretization : DurationDiscretization

/-- The mutable members of `Trajectory` that `calculate` reads and writes.
A `Trajectory` object is reused across `calculate` calls, so entries that a
call does not write (e.g. those of disabled DoFs) keep their previous,
possibly stale values; the duration is a possibly-infinite double. -/
structure TrajState (n : ℕ) where
  profiles : Fin n → Profile
  duration : WithTop ℚ
  independent_min_durations : Fin n → ℚ
  blocks : Fin n → Block
  p0s : Fin n → ℚ
  v0s : Fin n → ℚ
  a0s : Fin n → ℚ
  pd : Fin n → ℚ
  new_max_jerk : Fin n → ℚ
  inp_per_dof_control_interface : Fin n → ControlInterface
  inp_per_dof_synchronization : Fin n → Synchronization

/-- Per-DoF result of the first (brake + Step 1) pass of `calculate`. -/
structure DofPass1 where
  profile : Profile
  block : Block
  p0 : ℚ
  v0 : ℚ
  a0 : ℚ
  independent : ℚ
  syncMode : Synchronization
  controlMode : ControlInterface

instance : Inhabited DofPass1 :=
  ⟨⟨default, default, 0, 0, 0, 0, Synchronization.Time, ControlInterface.Position⟩⟩

def resControl {n : ℕ} (inp : InputParameter n) (d : Fin n) : ControlInterface :=
  match inp.per_dof_control_interface with
  | Option.some f => f d
  | Option.none => inp.control_interface

def resSync {n : ℕ} (inp : InputParameter n) (d : Fin n) : Synchronization :=
  match inp.per_dof_synchronization with
  | Option.some f => f d
  | Option.none => inp.synchronization

def resMinVelocity {n : ℕ} (inp : InputParameter n) (d : Fin n) : ℚ :=
  match inp.min_velocity with
  | Option.some f => f d
  | Option.none => -inp.max_velocity d

def resMinAcceleration {n : ℕ} (inp : InputParameter n) (d : Fin n) : ℚ :=
  match inp.min_acceleration with
  | Option.some f => f d
  | Option.none => -inp.max_acceleration d

def kinArgs {n : ℕ} (inp : InputParameter n) (d : Fin n) (p0 v0 a0 : ℚ) :
    KinematicArgs :=
  { p0 := p0, v0 := v0, a0 := a0, pf := inp.target_position d,
    vf := inp.target_velocity d, af := inp.target_acceleration d,
    vMax := inp.max_velocity d, vMin := resMinVelocity inp d,
    aMax := inp.max_acceleration d, aMin := resMinAcceleration inp d,
    jMax := inp.max_jerk d }

/-- The integration of the brake pre-trajectory
(`for (i = 0; i < 2 && brake.t[i] > 0; ++i)`): records the entry samples of
each executed brake segment and integrates through them, returning the new
brake record and the effective starting state.  Entries of segments that do
not run keep their previous (stale) values. -/
def brakeIntegrate (bt bj : Fin 2 → ℚ) (old : BrakeProfile) (p0 v0 a0 : ℚ) :
    BrakeProfile × (ℚ × ℚ × ℚ) :=
  if bt 0 > 0 then
    let s1 := Profile.integrate (bt 0) p0 v0 a0 (bj 0)
    if bt 1 > 0 then
      let s2 := Profile.integrate (bt 1) s1.1 s1.2.1 s1.2.2 (bj 1)
      (⟨bt 0 + bt 1, bt, bj,
        fun i => if i = 0 then p0 else s1.1,
        fun i => if i = 0 then v0 else s1.2.1,
        fun i => if i = 0 then a0 else s1.2.2⟩, s2)
    else
      (⟨bt 0 + bt 1, bt, bj, Function.update old.p 0 p0,
        Function.update old.v 0 v0, Function.update old.a 0 a0⟩, s1)
  else
    (⟨bt 0 + bt 1, bt, bj, old.p, old.v, old.a⟩, (p0, v0, a0))

/-- The body of the first loop of `Trajectory::calculate` for one DoF:
disabled DoFs only get their terminal samples set to the current state and
`t_sum[6]` zeroed; enabled DoFs run brake computation, brake integration and
Step 1.  `Option.none` is a Step 1 failure. -/
def step1Dof {n : ℕ} (or : Oracles) (inp : InputParameter n) (st : TrajState n)
    (d : Fin n) : Option DofPass1 :=
  if inp.enabled d = false then
    Option.some
      { profile :=
          { st.profiles d with
            pf := inp.current_position d,
            vf := inp.current_velocity d,
            af := inp.current_acceleration d,
            t_sum := Function.update (st.profiles d).t_sum 6 0 },
        block := st.blocks d, p0 := st.p0s d, v0 := st.v0s d, a0 := st.a0s d,
        independent := st.independent_min_durations d,
        syncMode := st.inp_per_dof_synchronization d,
        controlMode := st.inp_per_dof_control_interface d }
  else
    let ci := resControl inp d
    let btj :=
      match ci with
      | ControlInterface.Position =>
          or.brakePos d (inp.current_velocity d) (inp.current_acceleration d)
            (inp.max_velocity d) (resMinVelocity inp d) (inp.max_acceleration d)
            (resMinAcceleration inp d) (inp.max_jerk d)
      | ControlInterface.Velocity =>
          or.brakeVel d (inp.current_acceleration d) (inp.max_acceleration d)
            (resMinAcceleration inp d) (inp.max_jerk d)
    let bi := brakeIntegrate btj.1 btj.2 (st.profiles d).brake (inp.current_position d)
      (inp.current_velocity d) (inp.current_acceleration d)
    let p1 : Profile := { st.profiles d with brake := bi.1 }
    let args := kinArgs inp d bi.2.1 bi.2.2.1 bi.2.2.2
    match (match ci with
           | ControlInterface.Position => or.step1Pos d args p1
           | ControlInterface.Velocity => or.step1Vel d args p1) with
    | Option.none => Option.none
    | Option.some pb =>
      Option.some
        { profile := pb.1, block := pb.2, p0 := bi.2.1, v0 := bi.2.2.1, a0 := bi.2.2.2,
          independent := pb.2.p_min.brake.duration + pb.2.t_min,
          syncMode := resSync inp d, controlMode := ci }

/-- The first loop of `calculate` over all DoFs; any Step 1 failure aborts
with `ErrorExecutionTimeCalculation` (the C++ returns on the first failing
DoF; the observable result is the same). -/
def step1All {n : ℕ} (or : Oracles) (inp : InputParameter n) (st : TrajState n) :
    Option (Fin n → DofPass1) :=
  if h : ∀ d, (step1Dof or inp st d).isSome = true then
    Option.some fun d => (step1Dof or inp st d).get (h d)
  else
    Option.none

def applyPass1 {n : ℕ} (st : TrajState n) (out : Fin n → DofPass1) : TrajState n :=
  { st with
    profiles := fun d => (out d).profile,
    blocks := fun d => (out d).block,
    p0s := fun d => (out d).p0, v0s := fun d => (out d).v0, a0s := fun d => (out d).a0,
    independent_min_durations := fun d => (out d).independent,
    inp_per_dof_synchronization := fun d => (out d).syncMode,
    inp_per_dof_control_interface := fun d => (out d).controlMode }

/-- After a successful synchronization at candidate index `i`, the limiting
DoF (`i % n`) directly receives the Block profile of slot `i / n` (0:
`p_min`, 1: `a->profile`, 2: `b->profile`); index `3n` is the user floor and
assigns nothing.  Dereferencing an absent interval is undefined behaviour in
the C++ and is modelled by a default profile. -/
def applySyncProfile (n : ℕ) (blocks : Fin n → Block) (i : ℕ)
    (profiles : Fin n → Profile) : Fin n → Profile :=
  if i = 3 * n then profiles
  else fun d =>
    if (d : ℕ) = i % n then
      (if i / n = 0 then (blocks d).p_min
       else if i / n = 1 then ((blocks d).a.getD default).profile
       else ((blocks d).b.getD default).profile)
    else profiles d

/-- Array access at a possibly negative `limiting_dof` (an out-of-range
access is undefined behaviour in the C++; modelled by a default value). -/
def profAt {n : ℕ} (profiles : Fin n → Profile) (i : ℤ) : Profile :=
  if h : 0 ≤ i ∧ i.toNat < n then profiles ⟨i.toNat, h.2⟩ else default

def qAt {n : ℕ} (f : Fin n → ℚ) (i : ℤ) : ℚ :=
  if h : 0 ≤ i ∧ i.toNat < n then f ⟨i.toNat, h.2⟩ else 0

/-- First loop of `is_input_collinear`: update `pd` for every Phase DoF and
capture the scaling factors of the first DoF with nonzero displacement.
The C++ leaves the scale variables uninitialized until found; they are
modelled as zero. -/
def colinFirstPass {n : ℕ} (inp : InputParameter n)
    (syncModes : Fin n → Synchronization) (eps : ℚ) (pd0 : Fin n → ℚ) :
    (Fin n → ℚ) × Bool × (ℚ × ℚ × ℚ × ℚ) :=
  (List.finRange n).foldl
    (fun acc (d : Fin n) =>
      if syncModes d ≠ Synchronization.Phase then acc
      else
        let pdd := inp.target_position d - inp.current_position d
        let pd' := Function.update acc.1 d pdd
        if acc.2.1 = false ∧ |pdd| > eps then
          (pd', true, (inp.current_velocity d / pdd, inp.current_acceleration d / pdd,
                       inp.target_velocity d / pdd, inp.target_acceleration d / pdd))
        else (pd', acc.2.1, acc.2.2))
    (pd0, false, (0, 0, 0, 0))

/-- Second loop of `is_input_collinear`: check collinearity of every other
Phase DoF within `10·eps` and compute its scaled maximum jerk; a failing DoF
aborts the loop (the C++ returns false immediately, leaving the remaining
`new_max_jerk` entries unwritten). -/
def colinSecondPass {n : ℕ} (inp : InputParameter n)
    (syncModes : Fin n → Synchronization) (eps : ℚ) (pd : Fin n → ℚ)
    (scales : ℚ × ℚ × ℚ × ℚ) (limiting : ℤ) (max_jerk_limiting : ℚ)
    (nmj0 : Fin n → ℚ) : (Fin n → ℚ) × Bool :=
  (List.finRange n).foldl
    (fun acc (d : Fin n) =>
      if acc.2 = false then acc
      else if ((d : ℕ) : ℤ) = limiting ∨ syncModes d ≠ Synchronization.Phase then acc
      else if |inp.current_velocity d - scales.1 * pd d| > 10 * eps
            ∨ |inp.current_acceleration d - scales.2.1 * pd d| > 10 * eps
            ∨ |inp.target_velocity d - scales.2.2.1 * pd d| > 10 * eps
            ∨ |inp.target_acceleration d - scales.2.2.2 * pd d| > 10 * eps then
        (acc.1, false)
      else
        (Function.update acc.1 d (pd d / qAt pd limiting * max_jerk_limiting), acc.2))
    (nmj0, true)

/-- `Trajectory::is_input_collinear`: returns the collinearity verdict along
with the updated `pd` and `new_max_jerk` members. -/
def is_input_collinear {n : ℕ} (inp : InputParameter n) (eps : ℚ)
    (limiting_direction : Direction) (limiting : ℤ)
    (syncModes : Fin n → Synchronization) (pd0 nmj0 : Fin n → ℚ) :
    Bool × (Fin n → ℚ) × (Fin n → ℚ) :=
  let fp := colinFirstPass inp syncModes eps pd0
  if fp.2.1 = false then (false, fp.1, nmj0)
  else
    let mjl := if limiting_direction = Direction.UP then qAt inp.max_jerk limiting
               else -qAt inp.max_jerk limiting
    let sp := colinSecondPass inp syncModes eps fp.1 fp.2.2 limiting mjl nmj0
    (sp.2, fp.1, sp.1)

/-- The phase-synchronization loop of `calculate`: each enabled non-limiting
Phase DoF copies the limiting DoF's timing and jerk signs, re-derives its
boundary values and is checked under its scaled jerk; the limiting DoF's
limits tag is copied afterwards.  Returns the updated profiles and whether
every check passed. -/
def phaseLoop {n : ℕ} (or : Oracles) (inp : InputParameter n)
    (syncModes : Fin n → Synchronization) (limiting : ℤ) (duration : WithTop ℚ)
    (nmj : Fin n → ℚ) (profiles0 : Fin n → Profile) : (Fin n → Profile) × Bool :=
  (List.finRange n).foldl
    (fun acc (d : Fin n) =>
      if inp.enabled d = false ∨ ((d : ℕ) : ℤ) = limiting
         ∨ syncModes d ≠ Synchronization.Phase then acc
      else
        let pLim := profAt acc.1 limiting
        let p := acc.1 d
        let t_profile := duration.map fun q => q - p.brake.duration
        let p1 := { p with t := pLim.t, jerk_signs := pLim.jerk_signs }
        let pr := or.checkPhase d t_profile (nmj d)
          (kinArgs inp d (inp.current_position d) (inp.current_velocity d)
            (inp.current_acceleration d)) p1
        let p3 := { pr.1 with limits := pLim.limits }
        (Function.update acc.1 d p3, acc.2 && pr.2))
    (profiles0, true)

/-- `|t_profile - y| < eps` on a possibly-infinite duration (an infinite
difference is never within `eps`). -/
def wNear (x : WithTop ℚ) (y eps : ℚ) : Bool :=
  match x with
  | Option.none => false
  | Option.some q => decide (|q - y| < eps)

/-- The body of the time-synchronization loop of `calculate` for one
participating DoF (enabled, non-limiting, synchronization not `None`):
`TimeIfNecessary` with near-zero target velocity and acceleration keeps
`p_min`; a profile duration within `eps` of `t_min`, `a->right`, `b->right`
reuses the stored extremal profile; otherwise Step 2 runs.  `Option.none`
is a Step 2 failure. -/
def timeSyncDof (or : Oracles) (d : ℕ) (eps : ℚ) (ci : ControlInterface)
    (sync : Synchronization) (args : KinematicArgs) (duration : WithTop ℚ)
    (block : Block) (p : Profile) : Option Profile :=
  let t_profile := duration.map fun q => q - p.brake.duration
  if sync = Synchronization.TimeIfNecessary ∧ |args.vf| < eps ∧ |args.af| < eps then
    Option.some block.p_min
  else if wNear t_profile block.t_min eps then
    Option.some block.p_min
  else if block.a.isSome ∧ wNear t_profile (block.a.getD default).right eps then
    Option.some (block.a.getD default).profile
  else if block.b.isSome ∧ wNear t_profile (block.b.getD default).right eps then
    Option.some (block.b.getD default).profile
  else
    match ci with
    | ControlInterface.Position => or.step2Pos d t_profile args p
    | ControlInterface.Velocity => or.step2Vel d t_profile args p

/-- The time-synchronization loop over all DoFs, with the C++ early return
on a Step 2 failure modelled by a latched error. -/
def timeSyncLoop {n : ℕ} (or : Oracles) (inp : InputParameter n) (eps : ℚ)
    (syncModes : Fin n → Synchronization) (ciModes : Fin n → ControlInterface)
    (limiting : ℤ) (duration : WithTop ℚ) (blocks : Fin n → Block)
    (argsAt : Fin n → KinematicArgs) (profiles0 : Fin n → Profile) :
    (Fin n → Profile) × Option Result :=
  (List.finRange n).foldl
    (fun acc (d : Fin n) =>
      if acc.2.isSome then acc
      else if inp.enabled d = false ∨ ((d : ℕ) : ℤ) = limiting
           ∨ syncModes d = Synchronization.None then acc
      else
        match timeSyncDof or d eps (ciModes d) (syncModes d) (argsAt d) duration
            (blocks d) (acc.1 d) with
        | Option.some p2 => (Function.update acc.1 d p2, Option.none)
        | Option.none => (acc.1, Option.some Result.ErrorSynchronizationCalculation))
    (profiles0, Option.none)

/-- `Trajectory::calculate`: brake + Step 1 per DoF, synchronization,
optional duration ceiling, the zero-duration shortcut, the `None`
synchronization pass, the phase-synchronization path, and the
time-synchronization (Step 2) loop.  `eps` models
`std::numeric_limits<double>::epsilon()`. -/
def calculateRest {n : ℕ} (or : Oracles) (inp : InputParameter n) (eps : ℚ)
    (st1 : TrajState n) (limiting : ℤ) (tsync : WithTop ℚ)
    (profs1 : Fin n → Profile) : Result × TrajState n :=
  let st2 := { st1 with duration := tsync, profiles := profs1 }
  if tsync = ((0 : ℚ) : WithTop ℚ) then
    (Result.Working, st2)
  else
    let profs2 := fun d =>
      if inp.enabled d = true ∧ ((d : ℕ) : ℤ) ≠ limiting
         ∧ st1.inp_per_dof_synchronization d = Synchronization.None then
        (st1.blocks d).p_min
      else profs1 d
    let st3 := { st2 with profiles := profs2 }
    if ∀ d, st1.inp_per_dof_synchronization d = Synchronization.None then
      (Result.Working, st3)
    else
      let ph :=
        if (∃ d, st1.inp_per_dof_synchronization d = Synchronization.Phase) ∧
           (∀ d, st1.inp_per_dof_control_interface d = ControlInterface.Position) then
          let col := is_input_collinear inp eps (profAt profs2 limiting).direction
            limiting st1.inp_per_dof_synchronization st1.pd st1.new_max_jerk
          if col.1 = true then
            let pl := phaseLoop or inp st1.inp_per_dof_synchronization limiting
              tsync col.2.2 profs2
            (pl.1, col.2.1, col.2.2, pl.2)
          else (profs2, col.2.1, col.2.2, false)
        else (profs2, st1.pd, st1.new_max_jerk, false)
      let st4 :=
        { st3 with
          profiles := ph.1, pd := ph.2.1, new_max_jerk := ph.2.2.1 }
      if ph.2.2.2 = true ∧
         (∀ d, st1.inp_per_dof_synchronization d = Synchronization.Phase ∨
               st1.inp_per_dof_synchronization d = Synchronization.None) then
        (Result.Working, st4)
      else
        let tl := timeSyncLoop or inp eps st1.inp_per_dof_synchronization
          st1.inp_per_dof_control_interface limiting tsync st1.blocks
          (fun d => kinArgs inp d (st1.p0s d) (st1.v0s d) (st1.a0s d)) st4.profiles
        let st5 := { st4 with profiles := tl.1 }
        match tl.2 with
        | Option.some r => (r, st5)
        | Option.none => (Result.Working, st5)

def calculate {n : ℕ} (or : Oracles) (inp : InputParameter n) (eps delta_time : ℚ)
    (return_error_at_maximal_duration : Bool) (st : TrajState n) :
    Result × TrajState n :=
  match step1All or inp st with
  | Option.none => (Result.ErrorExecutionTimeCalculation, st)
  | Option.some out =>
    let st1 := applyPass1 st out
    let discrete := inp.duration_discretization = DurationDiscretization.Discrete
    match synchronize (List.ofFn st1.blocks) inp.minimum_duration
        (decide discrete) delta_time with
    | Option.none => (Result.ErrorSynchronizationCalculation, st1)
    | Option.some ti =>
      let tsync := ti.1
      let i := ti.2
      let limiting : ℤ := if i = 3 * n then -1 else ((i % n : ℕ) : ℤ)
      let profs1 := applySyncProfile n st1.blocks i st1.profiles
      let st2 := { st1 with duration := tsync, profiles := profs1 }
      if return_error_at_maximal_duration = true ∧ ((7600 : ℚ) : WithTop ℚ) < tsync then
        (Result.ErrorTrajectoryDuration, st2)
      else
        calculateRest or inp eps st1 limiting tsync profs1

/-- `std::upper_bound` over the seven running sums: the index of the first
entry strictly greater than `x` (7 when none is). -/
def upperBoundIdx (f : Fin 7 → ℚ) (x : ℚ) : ℕ :=
  if x < f 0 then 0
  else if x < f 1 then 1
  else if x < f 2 then 2
  else if x < f 3 then 3
  else if x < f 4 then 4
  else if x < f 5 then 5
  else if x < f 6 then 6
  else 7

/-- The per-DoF branch of `Trajectory::at_time` for a time before the
trajectory end: the brake segments, the constant-acceleration continuation
after the profile (non-time synchronization), or integration inside the
segment located by `upper_bound`.  An out-of-range segment access is
undefined behaviour in the C++ and unreachable here. -/
def atTimeDof (p : Profile) (time : ℚ) : ℚ × ℚ × ℚ :=
  if p.brake.duration > 0 ∧ time < p.brake.duration then
    let index : Fin 2 := if time < p.brake.t 0 then 0 else 1
    let t_diff := if time < p.brake.t 0 then time else time - p.brake.t 0
    Profile.integrate t_diff (p.brake.p index) (p.brake.v index) (p.brake.a index)
      (p.brake.j index)
  else
    let t_diff := if p.brake.duration > 0 then time - p.brake.duration else time
    if t_diff ≥ p.t_sum 6 then
      Profile.integrate (t_diff - p.t_sum 6) p.pf p.vf p.af 0
    else
      let idx := upperBoundIdx p.t_sum t_diff
      if hidx : idx < 7 then
        let t_diff2 := if 0 < idx then t_diff - p.t_sum ⟨idx - 1, by omega⟩ else t_diff
        Profile.integrate t_diff2 (p.p ⟨idx, hidx⟩) (p.v ⟨idx, hidx⟩)
          (p.a ⟨idx, hidx⟩) (p.j ⟨idx, hidx⟩)
      else (0, 0, 0)

/-- `Trajectory::at_time`: from the trajectory end on, every DoF continues
with constant acceleration from its terminal samples over the time past its
own total profile duration, and the section is 1; otherwise the per-DoF
sampling runs and the section is 0. -/
def at_time {n : ℕ} (profiles : Fin n → Profile) (duration : WithTop ℚ)
    (time : ℚ) : (Fin n → ℚ × ℚ × ℚ) × ℕ :=
  if duration ≤ ((time : ℚ) : WithTop ℚ) then
    (fun d =>
       Profile.integrate (time - ((profiles d).brake.duration + (profiles d).t_sum 6))
         (profiles d).pf (profiles d).vf (profiles d).af 0, 1)
  else
    (fun d => atTimeDof (profiles d) time, 0)

/-- A profile whose brake record still holds a stale one-segment brake
pre-trajectory (duration 1, jerk 6) from an earlier `calculate` call. -/
def pStale : Profile :=
  { (default : Profile) with
    brake :=
      ⟨1, fun i => if i = 0 then 1 else 0, fun i => if i = 0 then 6 else 0,
       fun _ => 0, fun _ => 0, fun _ => 0⟩ }

/-- A concrete profile with prescribed `t_sum[6]`, brake duration and
direction; all other fields zero.  Used for concrete instances. -/
def mkP (ts6 bd : ℚ) (d : Direction) : Profile :=
  { t := fun _ => 0, t_sum := fun i => if i = 6 then ts6 else 0, j := fun _ => 0,
    p := fun _ => 0, v := fun _ => 0, a := fun _ => 0, pf := 0, vf := 0, af := 0,
    brake := { duration := bd, t := fun _ => 0, j := fun _ => 0,
               p := fun _ => 0, v := fun _ => 0, a := fun _ => 0 },
    direction := d, jerk_signs := JerkSigns.UDDU, limits := Limits.NONE }

/-- A Block whose interval `a` has its left endpoint strictly inside
interval `b`. -/
def blkOverlap : Block :=
  ⟨default, 0, Option.some ⟨1, 2, default⟩, Option.some ⟨0, 10, default⟩⟩

/-- A single block with `t_min = 1` and no forbidden intervals. -/
def blkC1 : Block := ⟨default, 1, Option.none, Option.none⟩

/-- Blocks for the C1 witness: two DoFs, the second with a forbidden
interval `(2, 4)`. -/
def blkW0 : Block := ⟨default, 1, Option.none, Option.none⟩

def blkW1 : Block := ⟨default, 2, Option.some ⟨2, 4, default⟩, Option.none⟩

/-- A concrete oracle bundle: the brake solver requests a single brake
segment of duration 1, Step 1 returns the handed profile with
`t_sum[6] = 2` and its single-profile Block, Step 2 and the phase check
succeed unchanged. -/
def oraCommon : Oracles :=
  { brakePos := fun _ _ _ _ _ _ _ _ => (fun i => if i = 0 then 1 else 0, fun _ => 0),
    brakeVel := fun _ _ _ _ _ => (fun _ => 0, fun _ => 0),
    step1Pos := fun _ _ p =>
      Option.some ({ p with t_sum := fun i => if i = 6 then 2 else 0 },
        Block.ofProfile { p with t_sum := fun i => if i = 6 then 2 else 0 }),
    step1Vel := fun _ _ p => Option.some (p, Block.ofProfile p),
    step2Pos := fun _ _ _ p => Option.some p,
    step2Vel := fun _ _ _ p => Option.some p,
    checkPhase := fun _ _ _ _ p => (p, true) }

def argsCommon : KinematicArgs := ⟨0, 0, 0, 1, 0, 0, 1, -1, 1, -1, 1⟩

def blkC4 : Block := ⟨mkP 9 0 Direction.UP, 9, Option.none, Option.none⟩

/-- A single-DoF position-mode input: rest at 0, target 1, unit limits,
time synchronization, no floor, continuous durations. -/
def inpC3 : InputParameter 1 :=
  { enabled := fun _ => true, control_interface := ControlInterface.Position,
    synchronization := Synchronization.Time,
    per_dof_control_interface := Option.none,
    per_dof_synchronization := Option.none,
    current_position := fun _ => 0, current_velocity := fun _ => 0,
    current_acceleration := fun _ => 0,
    target_position := fun _ => 1, target_velocity := fun _ => 0,
    target_acceleration := fun _ => 0,
    max_velocity := fun _ => 1, min_velocity := Option.none,
    max_acceleration := fun _ => 1, min_acceleration := Option.none,
    max_jerk := fun _ => 1, minimum_duration := Option.none,
    duration_discretization := DurationDiscretization.Continuous }

/-- A freshly constructed trajectory state: everything zeroed. -/
def stEmpty (n : ℕ) : TrajState n :=
  { profiles := fun _ => default, duration := ((0 : ℚ) : WithTop ℚ),
    independent_min_durations := fun _ => 0, blocks := fun _ => default,
    p0s := fun _ => 0, v0s := fun _ => 0, a0s := fun _ => 0, pd := fun _ => 0,
    new_max_jerk := fun _ => 0,
    inp_per_dof_control_interface := fun _ => ControlInterface.Position,
    inp_per_dof_synchronization := fun _ => Synchronization.Time }

/-- The single-DoF input of `inpC3` with the DoF disabled and a nonzero
current position. -/
def inpC10 : InputParameter 1 :=
  { inpC3 with enabled := fun _ => false, current_position := fun _ => 5 }

/-- A reused trajectory state whose single profile still holds the stale
brake record of `pStale`. -/
def stC10 : TrajState 1 :=
  { stEmpty 1 with profiles := fun _ => pStale }

/-- An oracle bundle that differs from `oraCommon` exactly at DoF index 0:
its Step-1 position solver fails there. -/
def oraC10b : Oracles :=
  { oraCommon with
    step1Pos := fun k args p =>
      if k = 0 then Option.none else oraCommon.step1Pos k args p }

/-! ## Block-level lemmas and claim theorems -/

theorem intervalHas_none (t : WithTop ℚ) : intervalHas Option.none t = false := rfl

theorem intervalHas_some (I : Interval) (t : WithTop ℚ) :
    intervalHas (Option.some I) t =
      (decide ((I.left : WithTop ℚ) < t) && decide (t < (I.right : WithTop ℚ))) := rfl

theorem add_interval_eq (l r : Profile) :
    Block.add_interval l r =
      ⟨min l.totalDuration r.totalDuration, max l.totalDuration r.totalDuration,
       if l.totalDuration < r.totalDuration then r else l⟩ := by
  unfold Block.add_interval Profile.totalDuration
  dsimp only
  split_ifs with h
  · rw [min_eq_left h.le, max_eq_right h.le]
  · rw [min_eq_right (not_lt.mp h), max_eq_left (not_lt.mp h)]

/-- C7: an Interval built by `Block::add_interval` has `left ≤ right`, its
right end is the larger of the two total durations, and the stored profile is
the slower one, i.e. the one whose total duration equals `right`. -/
theorem C7_add_interval (l r : Profile) :
    (Block.add_interval l r).left ≤ (Block.add_interval l r).right ∧
    (Block.add_interval l r).left = min l.totalDuration r.totalDuration ∧
    (Block.add_interval l r).right = max l.totalDuration r.totalDuration ∧
    (Block.add_interval l r).profile.totalDuration = (Block.add_interval l r).right ∧
    ((Block.add_interval l r).profile = l ∨ (Block.add_interval l r).profile = r) := by
  rw [add_interval_eq]
  refine ⟨min_le_max, rfl, rfl, ?_, ?_⟩
  · dsimp only
    split_ifs with h
    · exact (max_eq_right h.le).symm
    · exact (max_eq_left (not_lt.mp h)).symm
  · dsimp only
    split_ifs with h
    · exact Or.inr rfl
    · exact Or.inl rfl

/-- C2 (amended): `is_blocked(t)` holds iff `t < t_min` or `t` lies strictly
inside interval `a` or strictly inside interval `b`; and an interval endpoint
is feasible whenever it is at least `t_min` and not strictly inside the
*other* interval.  (The original claim omits the last condition; see the
counterexample.) -/
theorem C2_is_blocked (bl : Block) (t : ℚ) :
    (bl.is_blocked (t : WithTop ℚ) = true ↔
       t < bl.t_min ∨ (∃ I, bl.a = Option.some I ∧ I.left < t ∧ t < I.right)
         ∨ (∃ I, bl.b = Option.some I ∧ I.left < t ∧ t < I.right)) ∧
    (∀ I, bl.a = Option.some I →
       (bl.t_min ≤ I.left → intervalHas bl.b (I.left : WithTop ℚ) = false →
          bl.is_blocked (I.left : WithTop ℚ) = false) ∧
       (bl.t_min ≤ I.right → intervalHas bl.b (I.right : WithTop ℚ) = false →
          bl.is_blocked (I.right : WithTop ℚ) = false)) ∧
    (∀ I, bl.b = Option.some I →
       (bl.t_min ≤ I.left → intervalHas bl.a (I.left : WithTop ℚ) = false →
          bl.is_blocked (I.left : WithTop ℚ) = false) ∧
       (bl.t_min ≤ I.right → intervalHas bl.a (I.right : WithTop ℚ) = false →
          bl.is_blocked (I.right : WithTop ℚ) = false)) := by
  refine ⟨?_, ?_, ?_⟩
  · unfold Block.is_blocked
    cases ha : bl.a <;> cases hbb : bl.b <;>
      simp [intervalHas, WithTop.coe_lt_coe, or_assoc]
  · intro I hI
    constructor
    · intro h1 h2
      unfold Block.is_blocked
      rw [hI, h2, intervalHas_some]
      simp [WithTop.coe_lt_coe, not_lt.mpr h1, lt_irrefl]
    · intro h1 h2
      unfold Block.is_blocked
      rw [hI, h2, intervalHas_some]
      simp [WithTop.coe_lt_coe, not_lt.mpr h1, lt_irrefl]
  · intro I hI
    constructor
    · intro h1 h2
      unfold Block.is_blocked
      rw [hI, h2, intervalHas_some]
      simp [WithTop.coe_lt_coe, not_lt.mpr h1, lt_irrefl]
    · intro h1 h2
      unfold Block.is_blocked
      rw [hI, h2, intervalHas_some]
      simp [WithTop.coe_lt_coe, not_lt.mpr h1, lt_irrefl]

/-- C2 counterexample: the endpoint `a.left = 1` satisfies `1 ≥ t_min = 0`,
yet `is_blocked 1 = true` because `1` lies strictly inside the other
forbidden interval `b = (0, 10)`; the claim asserts `is_blocked` is false at
every interval endpoint that is `≥ t_min`. -/
theorem C2_counterexample :
    blkOverlap.t_min ≤ 1 ∧
    blkOverlap.a = Option.some ⟨1, 2, default⟩ ∧
    blkOverlap.is_blocked ((1 : ℚ) : WithTop ℚ) = true := by
  refine ⟨by decide, rfl, by decide⟩

/-- C2 witness: the amended theorem applied to a concrete block and time. -/
theorem C2_witness :
    Block.is_blocked ⟨default, 0, Option.some ⟨1, 2, default⟩, Option.none⟩
      ((3 / 2 : ℚ) : WithTop ℚ) = true ∧
    Block.is_blocked ⟨default, 0, Option.some ⟨1, 2, default⟩, Option.none⟩
      ((2 : ℚ) : WithTop ℚ) = false := by
  constructor
  · exact (C2_is_blocked ⟨default, 0, Option.some ⟨1, 2, default⟩, Option.none⟩ (3 / 2)).1.mpr
      (Or.inr (Or.inl ⟨⟨1, 2, default⟩, rfl, by norm_num, by norm_num⟩))
  · exact ((C2_is_blocked ⟨default, 0, Option.some ⟨1, 2, default⟩, Option.none⟩ 2).2.1
      ⟨1, 2, default⟩ rfl).2 (by norm_num) rfl

theorem calculate_block_two_def (eps : ℚ) (robust : Bool) (p0 p1 : Profile) :
    Block.calculate_block eps robust [p0, p1] =
      if |p0.t_sum 6 - p1.t_sum 6| < 8 * eps then Option.some (Block.ofProfile p0)
      else if robust = true then
        Option.some
          { p_min := if p0.t_sum 6 < p1.t_sum 6 then p0 else p1,
            t_min := (if p0.t_sum 6 < p1.t_sum 6 then p0 else p1).t_sum 6 +
                     (if p0.t_sum 6 < p1.t_sum 6 then p0 else p1).brake.duration,
            a := Option.some (Block.add_interval
                   (if p0.t_sum 6 < p1.t_sum 6 then p0 else p1)
                   (if p0.t_sum 6 < p1.t_sum 6 then p1 else p0)),
            b := Option.none }
      else Option.none := rfl

theorem calculate_block_four_def (eps : ℚ) (robust : Bool) (p0 p1 p2 p3 : Profile) :
    Block.calculate_block eps robust [p0, p1, p2, p3] =
      if |p0.t_sum 6 - p1.t_sum 6| < 32 * eps ∧ p0.direction ≠ p1.direction then
        assemble3 p0 p2 p3
      else if |p2.t_sum 6 - p3.t_sum 6| < 256 * eps ∧ p2.direction ≠ p3.direction then
        assemble3 p0 p1 p2
      else if |p0.t_sum 6 - p3.t_sum 6| < 256 * eps ∧ p0.direction ≠ p3.direction then
        assemble3 p0 p1 p2
      else Option.none := rfl

/-- C5 (amended): `Block::calculate_block` with two valid profiles *of equal
brake duration* (as Step 1 produces for a single DoF) in numerically-robust
mode: durations within `8·eps` collapse to the single-profile Block of the
first profile with no forbidden interval; otherwise `p_min` is the faster
profile and the single forbidden interval spans the two total durations with
the slower profile stored at its right endpoint.  (Without equal brake
durations the claim fails; see the counterexample.) -/
theorem C5_calculate_block_two (eps : ℚ) (heps : 0 < eps) (p0 p1 : Profile)
    (hb : p0.brake.duration = p1.brake.duration) :
    (|p0.totalDuration - p1.totalDuration| < 8 * eps →
      Block.calculate_block eps true [p0, p1] =
        Option.some ⟨p0, p0.totalDuration, Option.none, Option.none⟩) ∧
    (¬ |p0.totalDuration - p1.totalDuration| < 8 * eps →
      Block.calculate_block eps true [p0, p1] =
        Option.some ⟨if p0.totalDuration < p1.totalDuration then p0 else p1,
                     min p0.totalDuration p1.totalDuration,
                     Option.some ⟨min p0.totalDuration p1.totalDuration,
                                  max p0.totalDuration p1.totalDuration,
                                  if p0.totalDuration < p1.totalDuration then p1 else p0⟩,
                     Option.none⟩) := by
  have hdiff : p0.t_sum 6 - p1.t_sum 6 = p0.totalDuration - p1.totalDuration := by
    unfold Profile.totalDuration
    rw [hb]
    ring
  constructor
  · intro h
    rw [calculate_block_two_def, if_pos (by rw [hdiff]; exact h)]
    rfl
  · intro h
    have hne : p0.totalDuration ≠ p1.totalDuration := by
      intro he
      apply h
      rw [he, sub_self, abs_zero]
      linarith
    rw [calculate_block_two_def, if_neg (by rw [hdiff]; exact h), if_pos rfl]
    rcases lt_or_gt_of_ne hne with hlt | hgt
    · have h06 : p0.t_sum 6 < p1.t_sum 6 :=
        sub_lt_zero.mp (by rw [hdiff]; exact sub_lt_zero.mpr hlt)
      rw [if_pos h06, if_pos h06, add_interval_eq, if_pos hlt, if_pos hlt,
        min_eq_left hlt.le, max_eq_right hlt.le]
      rfl
    · have h06 : p1.t_sum 6 < p0.t_sum 6 :=
        sub_lt_zero.mp (by
          have hd : p1.totalDuration - p0.totalDuration = p1.t_sum 6 - p0.t_sum 6 := by
            unfold Profile.totalDuration
            rw [hb]
            ring
          rw [← hd]
          exact sub_lt_zero.mpr hgt)
      rw [if_neg (not_lt.mpr h06.le), if_neg (not_lt.mpr h06.le), add_interval_eq,
        if_pos hgt, if_neg (not_lt.mpr hgt.le), if_neg (not_lt.mpr hgt.le),
        min_eq_left hgt.le, max_eq_right hgt.le, min_eq_right hgt.le, max_eq_left hgt.le]
      rfl

/-- C5 counterexample: two profiles with equal *total* durations (`1` each)
but different brake durations.  The claim predicts the tie branch (durations
agree within `8·eps`), i.e. the single-profile Block of the first profile
with no forbidden interval; the code compares only the `t_sum[6]` parts
(`1` vs `0`), takes the non-tie branch, produces a forbidden interval and
selects the *second* profile (the one with `t_sum[6] = 0`) as `p_min`. -/
theorem C5_counterexample :
    (mkP 1 0 Direction.UP).totalDuration = (mkP 0 1 Direction.UP).totalDuration ∧
    (Block.calculate_block (1 / 2 ^ 52) true
        [mkP 1 0 Direction.UP, mkP 0 1 Direction.UP]).map
      (fun blk => (blk.a.isSome, blk.p_min.t_sum 6)) = Option.some (true, 0) := by
  constructor
  · norm_num [mkP, Profile.totalDuration]
  · have h8 : ¬ |(mkP 1 0 Direction.UP).t_sum 6 - (mkP 0 1 Direction.UP).t_sum 6|
        < 8 * (1 / 2 ^ 52 : ℚ) := by
      norm_num [mkP]
    have h06 : ¬ (mkP 1 0 Direction.UP).t_sum 6 < (mkP 0 1 Direction.UP).t_sum 6 := by
      norm_num [mkP]
    rw [calculate_block_two_def, if_neg h8, if_pos rfl, if_neg h06, if_neg h06]
    simp [mkP]

/-- C5 witness: the amended theorem applied to two concrete equal-brake
profiles whose durations agree within `8·eps`. -/
theorem C5_witness :
    Block.calculate_block 1 true [mkP 1 0 Direction.UP, mkP 5 0 Direction.UP] =
      Option.some ⟨mkP 1 0 Direction.UP, (mkP 1 0 Direction.UP).totalDuration,
                   Option.none, Option.none⟩ :=
  (C5_calculate_block_two 1 (by norm_num) (mkP 1 0 Direction.UP)
      (mkP 5 0 Direction.UP) rfl).1
    (by norm_num [mkP, Profile.totalDuration])

/-- C6 (amended): `Block::calculate_block` with four valid profiles collapses
a near-duplicate pair — `t_sum[6]` durations (the quantity the code
compares, excluding the brake pre-trajectory) within `32·eps` for the pair
`(0,1)`, `256·eps` for the pairs `(2,3)` and `(0,3)`, with differing
directions — down to three profiles and proceeds with the three-profile
assembly (succeeding); if no pair collapses it fails, and every other even
count fails.  Reading `durations` as total durations (brake included)
instead is refuted by the counterexample below. -/
theorem C6_calculate_block_even (eps : ℚ) (robust : Bool) (ps : List Profile) :
    (∀ p0 p1 p2 p3, ps = [p0, p1, p2, p3] →
      ((|p0.t_sum 6 - p1.t_sum 6| < 32 * eps ∧ p0.direction ≠ p1.direction →
          Block.calculate_block eps robust ps = assemble3 p0 p2 p3 ∧
          (Block.calculate_block eps robust ps).isSome = true) ∧
       (¬(|p0.t_sum 6 - p1.t_sum 6| < 32 * eps ∧ p0.direction ≠ p1.direction) →
        (|p2.t_sum 6 - p3.t_sum 6| < 256 * eps ∧ p2.direction ≠ p3.direction) →
          Block.calculate_block eps robust ps = assemble3 p0 p1 p2 ∧
          (Block.calculate_block eps robust ps).isSome = true) ∧
       (¬(|p0.t_sum 6 - p1.t_sum 6| < 32 * eps ∧ p0.direction ≠ p1.direction) →
        ¬(|p2.t_sum 6 - p3.t_sum 6| < 256 * eps ∧ p2.direction ≠ p3.direction) →
        (|p0.t_sum 6 - p3.t_sum 6| < 256 * eps ∧ p0.direction ≠ p3.direction) →
          Block.calculate_block eps robust ps = assemble3 p0 p1 p2 ∧
          (Block.calculate_block eps robust ps).isSome = true) ∧
       (¬(|p0.t_sum 6 - p1.t_sum 6| < 32 * eps ∧ p0.direction ≠ p1.direction) →
        ¬(|p2.t_sum 6 - p3.t_sum 6| < 256 * eps ∧ p2.direction ≠ p3.direction) →
        ¬(|p0.t_sum 6 - p3.t_sum 6| < 256 * eps ∧ p0.direction ≠ p3.direction) →
          Block.calculate_block eps robust ps = Option.none))) ∧
    (ps.length % 2 = 0 → ps.length ≠ 2 → ps.length ≠ 4 →
      Block.calculate_block eps robust ps = Option.none) := by
  constructor
  · intro p0 p1 p2 p3 heq
    subst heq
    refine ⟨?_, ?_, ?_, ?_⟩
    · intro hc
      have hres : Block.calculate_block eps robust [p0, p1, p2, p3] = assemble3 p0 p2 p3 := by
        rw [calculate_block_four_def, if_pos hc]
      exact ⟨hres, by rw [hres]; rfl⟩
    · intro hn1 hc
      have hres : Block.calculate_block eps robust [p0, p1, p2, p3] = assemble3 p0 p1 p2 := by
        rw [calculate_block_four_def, if_neg hn1, if_pos hc]
      exact ⟨hres, by rw [hres]; rfl⟩
    · intro hn1 hn2 hc
      have hres : Block.calculate_block eps robust [p0, p1, p2, p3] = assemble3 p0 p1 p2 := by
        rw [calculate_block_four_def, if_neg hn1, if_neg hn2, if_pos hc]
      exact ⟨hres, by rw [hres]; rfl⟩
    · intro hn1 hn2 hn3
      rw [calculate_block_four_def, if_neg hn1, if_neg hn2, if_neg hn3]
  · intro h2 hne2 hne4
    rcases ps with _ | ⟨a, _ | ⟨b, _ | ⟨c, _ | ⟨d, _ | ⟨e, _ | ⟨f, rest⟩⟩⟩⟩⟩⟩
    · rfl
    · exact absurd (h2 : (1 : ℕ) = 0) one_ne_zero
    · exact (hne2 rfl).elim
    · simp only [List.length_cons, List.length_nil] at h2
      omega
    · exact (hne4 rfl).elim
    · simp only [List.length_cons, List.length_nil] at h2
      omega
    · rfl

/-- C6 counterexample against the total-duration reading of the claim: four
valid profiles whose examined pairs all fail the claim's test — the pair
`(0,1)` has total durations `0` and `100` (difference `100 ≥ 32·eps` with
`eps = 1`), and the pairs `(2,3)` and `(0,3)` share a direction — so the
claim demands failure; yet `calculate_block` compares `t_sum[6]` (both `0`
for the first pair, within `32·eps`, directions differing), collapses that
pair and succeeds. -/
theorem C6_counterexample :
    ¬ (|(mkP 0 0 Direction.UP).totalDuration -
          (mkP 0 100 Direction.DOWN).totalDuration| < 32 * 1) ∧
    (mkP 2 0 Direction.UP).direction = (mkP 3 0 Direction.UP).direction ∧
    (mkP 0 0 Direction.UP).direction = (mkP 3 0 Direction.UP).direction ∧
    |(mkP 0 0 Direction.UP).t_sum 6 - (mkP 0 100 Direction.DOWN).t_sum 6| <
      32 * 1 ∧
    (mkP 0 0 Direction.UP).direction ≠ (mkP 0 100 Direction.DOWN).direction ∧
    (Block.calculate_block 1 true
        [mkP 0 0 Direction.UP, mkP 0 100 Direction.DOWN, mkP 2 0 Direction.UP,
         mkP 3 0 Direction.UP]).isSome = true := by
  refine ⟨?_, rfl, rfl, ?_, by decide, ?_⟩
  · norm_num [mkP, Profile.totalDuration]
  · norm_num [mkP]
  · rw [calculate_block_four_def, if_pos ⟨by norm_num [mkP], by decide⟩]
    rfl

/-- C6 witness: a concrete four-profile list whose first pair collapses, and
the zero-profile (even) failure case. -/
theorem C6_witness :
    Block.calculate_block 1 true
        [mkP 0 0 Direction.UP, mkP 1 0 Direction.DOWN, mkP 2 0 Direction.UP,
         mkP 3 0 Direction.UP] =
      assemble3 (mkP 0 0 Direction.UP) (mkP 2 0 Direction.UP) (mkP 3 0 Direction.UP) ∧
    Block.calculate_block 1 true ([] : List Profile) = Option.none := by
  constructor
  · exact (((C6_calculate_block_even 1 true _).1 _ _ _ _ rfl).1
      ⟨by norm_num [mkP], by decide⟩).1
  · exact (C6_calculate_block_even 1 true []).2 (by decide) (by decide) (by decide)

/-! ## Synchronizer lemmas and claim C1 -/

theorem is_blocked_eq_false_iff (bl : Block) (v : WithTop ℚ) :
    bl.is_blocked v = false ↔
      (bl.t_min : WithTop ℚ) ≤ v ∧ intervalHas bl.a v = false ∧ intervalHas bl.b v = false := by
  unfold Block.is_blocked
  simp only [Bool.or_eq_false_iff, decide_eq_false_iff_not, not_lt]
  tauto

theorem okCand_iff (blocks : List Block) (t_min? : Option ℚ) (v : WithTop ℚ)
    (hne : blocks ≠ []) (htm : ∀ bl ∈ blocks, 0 ≤ bl.t_min) :
    okCand blocks t_min? v = true ↔
      ((∀ bl ∈ blocks, (bl.t_min : WithTop ℚ) ≤ v) ∧
       (∀ bl ∈ blocks, intervalHas bl.a v = false ∧ intervalHas bl.b v = false) ∧
       (∀ f, t_min? = Option.some f → ((f : ℚ) : WithTop ℚ) ≤ v)) := by
  unfold okCand
  rw [Bool.and_eq_true, Bool.not_eq_true', decide_eq_true_eq, List.any_eq_false]
  constructor
  · rintro ⟨h1, h2⟩
    have hblk : ∀ bl ∈ blocks, bl.is_blocked v = false := fun bl hbl =>
      Bool.eq_false_iff.mpr (h1 bl hbl)
    refine ⟨fun bl hbl => ((is_blocked_eq_false_iff bl v).mp (hblk bl hbl)).1,
            fun bl hbl => ((is_blocked_eq_false_iff bl v).mp (hblk bl hbl)).2,
            fun f hf => ?_⟩
    rw [hf] at h2
    simpa using h2
  · rintro ⟨h1, h2, h3⟩
    constructor
    · intro bl hbl
      rw [Bool.not_eq_true]
      exact (is_blocked_eq_false_iff bl v).mpr
        ⟨h1 bl hbl, (h2 bl hbl).1, (h2 bl hbl).2⟩
    · rcases t_min? with _ | f
      · simp only [Option.getD_none]
        rcases blocks with _ | ⟨b0, bs⟩
        · exact absurd rfl hne
        · exact le_trans (WithTop.coe_le_coe.mpr (htm b0 (List.mem_cons_self _ _)))
            (h1 b0 (List.mem_cons_self _ _))
      · simp only [Option.getD_some]
        exact h3 f rfl

theorem find_drop_sorted_le (P : WithTop ℚ → Bool) (s : List (ℕ × WithTop ℚ)) :
    ∀ (k : ℕ) (x : ℕ × WithTop ℚ), s.Sorted candLE →
      (s.drop k).find? (fun z => P z.2) = Option.some x →
      ∀ y ∈ s, P y.2 = true →
        k + 1 ≤ s.countP (fun z => decide (z.2 ≤ y.2)) → x.2 ≤ y.2 := by
  induction s with
  | nil =>
    intro k x _ hf
    rw [List.drop_nil] at hf
    exact absurd hf (by simp)
  | cons h t ih =>
    intro k x hs hf y hy hPy hcount
    obtain ⟨hht, hts⟩ := List.sorted_cons.mp hs
    cases k with
    | zero =>
      rw [List.drop_zero] at hf
      by_cases hPh : P h.2 = true
      · rw [@List.find?_cons_of_pos (ℕ × WithTop ℚ) (fun z => P z.2) h t hPh] at hf
        obtain rfl : h = x := Option.some.inj hf
        rcases List.mem_cons.mp hy with rfl | hyt
        · exact le_refl _
        · exact hht y hyt
      · rw [@List.find?_cons_of_neg (ℕ × WithTop ℚ) (fun z => P z.2) h t hPh] at hf
        have hyt : y ∈ t := by
          rcases List.mem_cons.mp hy with rfl | hyt
          · exact absurd hPy hPh
          · exact hyt
        refine ih 0 x hts (by rw [List.drop_zero]; exact hf) y hyt hPy ?_
        have hpos : 0 < t.countP (fun z => decide (z.2 ≤ y.2)) :=
          List.countP_pos_iff.mpr ⟨y, hyt, by simp⟩
        omega
    | succ k =>
      rw [List.drop_succ_cons] at hf
      rcases List.mem_cons.mp hy with rfl | hyt
      · have hc1 : k + 1 ≤ t.countP (fun z => decide (z.2 ≤ y.2)) := by
          rw [List.countP_cons] at hcount
          simp at hcount
          omega
        obtain ⟨y', hy't, hy'le⟩ :=
          List.countP_pos_iff.mp (lt_of_lt_of_le (Nat.succ_pos k) hc1)
        have hy'le' : y'.2 ≤ y.2 := of_decide_eq_true hy'le
        have hy'eq : y'.2 = y.2 := le_antisymm hy'le' (hht y' hy't)
        have hx : x.2 ≤ y'.2 := by
          refine ih k x hts hf y' hy't (by rw [hy'eq]; exact hPy) ?_
          have hcong : (fun z : ℕ × WithTop ℚ => decide (z.2 ≤ y'.2)) =
              (fun z => decide (z.2 ≤ y.2)) := by
            funext z
            rw [hy'eq]
          rw [hcong]
          exact hc1
        exact hx.trans (le_of_eq hy'eq)
      · refine ih k x hts hf y hyt hPy ?_
        rw [List.countP_cons] at hcount
        have hle1 : (if decide (h.2 ≤ y.2) = true then 1 else 0) ≤ 1 := by
          split <;> omega
        omega

theorem roundUp_mono_of_le (delta_time t q : ℚ) (hd : 0 < delta_time)
    (h : t ≤ (⌈q / delta_time⌉ : ℚ) * delta_time) :
    (⌈t / delta_time⌉ : ℚ) * delta_time ≤ (⌈q / delta_time⌉ : ℚ) * delta_time := by
  have hle : ⌈t / delta_time⌉ ≤ ⌈q / delta_time⌉ := by
    rw [Int.ceil_le, div_le_iff₀ hd]
    exact h
  exact mul_le_mul_of_nonneg_right (by exact_mod_cast hle) hd.le

theorem candRaw_lt_length (blocks : List Block) (t_min? : Option ℚ) (i : ℕ)
    (h : i < blocks.length) :
    candRaw blocks t_min? i = ((blocks.getD i default).t_min : WithTop ℚ) := by
  unfold candRaw
  rw [if_pos h]

theorem possibleTSync_top (blocks : List Block) (t_min? : Option ℚ)
    (discrete : Bool) (delta_time : ℚ) (i : ℕ)
    (hai : anyInterval blocks t_min? = false) (h : blocks.length ≤ i) :
    possibleTSync blocks t_min? discrete delta_time i = ⊤ := by
  unfold anyInterval at hai
  rw [Bool.or_eq_false_iff] at hai
  obtain ⟨ha, hf⟩ := hai
  have hblk : ∀ bl ∈ blocks, bl.a = Option.none ∧ bl.b = Option.none := by
    intro bl hbl
    have hb := List.any_eq_false.mp ha bl hbl
    rw [Bool.or_eq_true] at hb
    push_neg at hb
    exact ⟨Option.not_isSome_iff_eq_none.mp (by simpa using hb.1),
           Option.not_isSome_iff_eq_none.mp (by simpa using hb.2)⟩
  have hraw : candRaw blocks t_min? i = ⊤ := by
    unfold candRaw
    rw [if_neg (by omega)]
    split_ifs with h2 h3
    · have hin : i - blocks.length < blocks.length := by omega
      have hmem : blocks.getD (i - blocks.length) default ∈ blocks := by
        rw [List.getD_eq_getElem _ _ hin]
        exact List.getElem_mem _
      rw [(hblk _ hmem).1]
    · have hin : i - 2 * blocks.length < blocks.length := by omega
      have hmem : blocks.getD (i - 2 * blocks.length) default ∈ blocks := by
        rw [List.getD_eq_getElem _ _ hin]
        exact List.getElem_mem _
      rw [(hblk _ hmem).2]
    · rcases t_min? with _ | f
      · rfl
      · simp at hf
  unfold possibleTSync
  split_ifs
  · rw [hraw]
    rfl
  · exact hraw

theorem candList_take (blocks : List Block) (t_min? : Option ℚ) (discrete : Bool)
    (delta_time : ℚ) :
    (candList blocks t_min? discrete delta_time).take blocks.length =
      (List.range blocks.length).map
        (fun i => (i, possibleTSync blocks t_min? discrete delta_time i)) := by
  unfold candList
  rw [← List.map_take, List.take_range, inf_eq_left.mpr (by omega)]

theorem mem_candValues (blocks : List Block) (t_min? : Option ℚ)
    (discrete : Bool) (delta_time : ℚ) (i : ℕ) (h : i < 3 * blocks.length + 1) :
    possibleTSync blocks t_min? discrete delta_time i ∈
      candValues blocks t_min? discrete delta_time := by
  unfold candValues candList
  rw [List.map_map]
  exact List.mem_map_of_mem _ (List.mem_range.mpr h)

theorem syncScan_min (blocks : List Block) (t_min? : Option ℚ) (discrete : Bool)
    (delta_time : ℚ) (x : ℕ × WithTop ℚ)
    (hn : 1 ≤ blocks.length) (hd : discrete = true → 0 < delta_time)
    (hscan : syncScan blocks t_min? discrete delta_time = Option.some x) :
    okCand blocks t_min? x.2 = true ∧
    x ∈ candList blocks t_min? discrete delta_time ∧
    ∀ c ∈ candValues blocks t_min? discrete delta_time,
      okCand blocks t_min? c = true →
      (∀ bl ∈ blocks, (bl.t_min : WithTop ℚ) ≤ c) → x.2 ≤ c := by
  unfold syncScan at hscan
  set L := (if anyInterval blocks t_min? then candList blocks t_min? discrete delta_time
      else (candList blocks t_min? discrete delta_time).take blocks.length) with hL
  have hok0 := List.find?_some hscan
  have hok : okCand blocks t_min? x.2 = true := hok0
  have hxs : x ∈ L.insertionSort candLE :=
    List.drop_subset _ _ (List.mem_of_find?_eq_some hscan)
  have hxL : x ∈ L := (List.perm_insertionSort candLE L).mem_iff.mp hxs
  have hxcand : x ∈ candList blocks t_min? discrete delta_time := by
    by_cases hai : anyInterval blocks t_min? = true
    · rwa [hL, if_pos hai] at hxL
    · rw [hL, if_neg hai] at hxL
      exact List.mem_of_mem_take hxL
  refine ⟨hok, hxcand, ?_⟩
  intro c hc hokc h1
  obtain ⟨j, hjlt, hjc⟩ : ∃ j, j < 3 * blocks.length + 1 ∧
      possibleTSync blocks t_min? discrete delta_time j = c := by
    unfold candValues candList at hc
    rw [List.map_map] at hc
    obtain ⟨j, hj, hjc⟩ := List.mem_map.mp hc
    exact ⟨j, List.mem_range.mp hj, hjc⟩
  have hcle : ∀ j', j' < blocks.length →
      possibleTSync blocks t_min? discrete delta_time j' ≤ c := by
    intro j' hj'
    have hmem : blocks.getD j' default ∈ blocks := by
      rw [List.getD_eq_getElem _ _ hj']
      exact List.getElem_mem _
    have htc : ((blocks.getD j' default).t_min : WithTop ℚ) ≤ c := h1 _ hmem
    unfold possibleTSync
    rw [candRaw_lt_length _ _ _ hj']
    by_cases hdt : discrete = true
    · have hshape : c = ⊤ ∨
          ∃ q : ℚ, c = ((⌈q / delta_time⌉ * delta_time : ℚ) : WithTop ℚ) := by
        rw [← hjc]
        unfold possibleTSync
        rw [if_pos hdt]
        rcases candRaw blocks t_min? j with _ | q
        · exact Or.inl rfl
        · exact Or.inr ⟨q, rfl⟩
      rcases hshape with rfl | ⟨q, rfl⟩
      · exact le_top
      · rw [if_pos hdt]
        have htc' : (blocks.getD j' default).t_min ≤ ⌈q / delta_time⌉ * delta_time :=
          WithTop.coe_le_coe.mp htc
        have hru : roundUp delta_time ((blocks.getD j' default).t_min : WithTop ℚ) =
            ((⌈(blocks.getD j' default).t_min / delta_time⌉ * delta_time : ℚ) :
              WithTop ℚ) := rfl
        rw [hru]
        exact WithTop.coe_le_coe.mpr (roundUp_mono_of_le delta_time _ q (hd hdt) htc')
    · rw [if_neg hdt]
      exact htc
  by_cases hcase : anyInterval blocks t_min? = false ∧ blocks.length ≤ j
  · have hctop : c = ⊤ := by
      rw [← hjc]
      exact possibleTSync_top blocks t_min? discrete delta_time j hcase.1 hcase.2
    rw [hctop]
    exact le_top
  · -- the pair (j, c) occurs in L
    have hpair : (j, c) ∈ L := by
      by_cases hai : anyInterval blocks t_min? = true
      · rw [hL, if_pos hai]
        unfold candList
        rw [← hjc]
        exact List.mem_map_of_mem _ (List.mem_range.mpr hjlt)
      · have hjn : j < blocks.length := by
          rcases Nat.lt_or_ge j blocks.length with h | h
          · exact h
          · exact absurd ⟨Bool.eq_false_iff.mpr hai, h⟩ hcase
        rw [hL, if_neg hai, candList_take]
        rw [← hjc]
        exact List.mem_map_of_mem _ (List.mem_range.mpr hjn)
    have hpairS : (j, c) ∈ L.insertionSort candLE :=
      (List.perm_insertionSort candLE L).mem_iff.mpr hpair
    have hcount_first : ((List.range blocks.length).map
        (fun i => (i, possibleTSync blocks t_min? discrete delta_time i))).countP
          (fun z => decide (z.2 ≤ c)) = blocks.length := by
      have hall : ∀ z ∈ (List.range blocks.length).map
          (fun i => (i, possibleTSync blocks t_min? discrete delta_time i)),
          (fun z : ℕ × WithTop ℚ => decide (z.2 ≤ c)) z = true := by
        intro z hz
        obtain ⟨i2, hi2, rfl⟩ := List.mem_map.mp hz
        exact decide_eq_true (hcle i2 (List.mem_range.mp hi2))
      rw [List.countP_eq_length.mpr hall, List.length_map, List.length_range]
    have hfirst_sub : ((List.range blocks.length).map
        (fun i => (i, possibleTSync blocks t_min? discrete delta_time i))).Sublist L := by
      by_cases hai : anyInterval blocks t_min? = true
      · rw [hL, if_pos hai]
        unfold candList
        exact List.Sublist.map _ (List.range_sublist.mpr (by omega))
      · rw [hL, if_neg hai, candList_take]
    have hcountL : blocks.length ≤ L.countP (fun z => decide (z.2 ≤ c)) := by
      rw [← hcount_first]
      exact List.Sublist.countP_le _ hfirst_sub
    have hcountS : blocks.length - 1 + 1 ≤
        (L.insertionSort candLE).countP (fun z => decide (z.2 ≤ c)) := by
      rw [(List.perm_insertionSort candLE L).countP_eq]
      omega
    exact find_drop_sorted_le (okCand blocks t_min?) (L.insertionSort candLE)
      (blocks.length - 1) x (List.sorted_insertionSort candLE L) hscan
      (j, c) hpairS hokc hcountS

/-- C1 (amended): whenever `Trajectory::synchronize` succeeds with duration
`t`, then (i) `t` is one of the examined candidates — per DoF the three
numbers `t_min`, `a.right` (else `+infinity`), `b.right` (else `+infinity`)
plus the floor (else `+infinity`), *each rounded up to the next multiple of
the quantum when a quantum is given*; (ii) `t` is at least every DoF's
`t_min`, not strictly inside any DoF's forbidden interval, and at least the
user floor; and (iii) `t` is the least such candidate — equivalently the
first one examined in ascending order starting from the largest `t_min`.
Assumes well-formed blocks (`t_min ≥ 0` and `t_min` not strictly inside the
block's own intervals) and a positive quantum when discretization is on.
(The original claim describes the candidates without the rounding of the
quantization pass; see the counterexample.) -/
theorem C1_synchronize (blocks : List Block) (t_min? : Option ℚ) (discrete : Bool)
    (delta_time : ℚ) (t : WithTop ℚ) (i : ℕ)
    (hn : 1 ≤ blocks.length)
    (hd : discrete = true → 0 < delta_time)
    (htm : ∀ bl ∈ blocks, 0 ≤ bl.t_min)
    (hwf : ∀ bl ∈ blocks, intervalHas bl.a (bl.t_min : WithTop ℚ) = false ∧
                          intervalHas bl.b (bl.t_min : WithTop ℚ) = false)
    (hfound : synchronize blocks t_min? discrete delta_time = Option.some (t, i)) :
    t ∈ candValues blocks t_min? discrete delta_time ∧
    (∀ bl ∈ blocks, (bl.t_min : WithTop ℚ) ≤ t) ∧
    (∀ bl ∈ blocks, intervalHas bl.a t = false ∧ intervalHas bl.b t = false) ∧
    (∀ f, t_min? = Option.some f → ((f : ℚ) : WithTop ℚ) ≤ t) ∧
    (∀ c ∈ candValues blocks t_min? discrete delta_time,
      (∀ bl ∈ blocks, (bl.t_min : WithTop ℚ) ≤ c) →
      (∀ bl ∈ blocks, intervalHas bl.a c = false ∧ intervalHas bl.b c = false) →
      (∀ f, t_min? = Option.some f → ((f : ℚ) : WithTop ℚ) ≤ c) →
      t ≤ c) := by
  have hne : blocks ≠ [] := by
    intro h
    rw [h] at hn
    exact absurd hn (by simp)
  unfold synchronize at hfound
  by_cases hfast : blocks.length = 1 ∧ t_min? = Option.none ∧ discrete = false
  · rw [if_pos hfast] at hfound
    obtain ⟨hn1, hfloor, hdisc⟩ := hfast
    obtain ⟨b0, rfl⟩ := List.length_eq_one.mp hn1
    subst hfloor
    subst hdisc
    have ht : t = (b0.t_min : WithTop ℚ) :=
      (congrArg Prod.fst (Option.some.inj hfound)).symm
    have hps : possibleTSync [b0] Option.none false delta_time 0 =
        (b0.t_min : WithTop ℚ) := by
      unfold possibleTSync
      rw [if_neg (by simp)]
      exact candRaw_lt_length [b0] Option.none 0 (by simp)
    refine ⟨?_, ?_, ?_, ?_, ?_⟩
    · rw [ht, ← hps]
      exact mem_candValues [b0] Option.none false delta_time 0 (by simp)
    · intro bl hbl
      obtain rfl := List.mem_singleton.mp hbl
      rw [ht]
    · intro bl hbl
      obtain rfl := List.mem_singleton.mp hbl
      rw [ht]
      exact hwf bl (List.mem_singleton.mpr rfl)
    · intro f hf
      exact absurd hf (by simp)
    · intro c hc h1 h2 h3
      rw [ht]
      exact h1 b0 (List.mem_singleton.mpr rfl)
  · rw [if_neg hfast] at hfound
    cases hscan : syncScan blocks t_min? discrete delta_time with
    | none =>
      rw [hscan] at hfound
      exact absurd hfound (by simp)
    | some x =>
      rw [hscan] at hfound
      have hx2 : x.2 = t := congrArg Prod.fst (Option.some.inj hfound)
      obtain ⟨hok, hxcand, hmin⟩ :=
        syncScan_min blocks t_min? discrete delta_time x hn hd hscan
      have haccept := (okCand_iff blocks t_min? x.2 hne htm).mp hok
      refine ⟨?_, ?_, ?_, ?_, ?_⟩
      · rw [← hx2]
        exact List.mem_map_of_mem Prod.snd hxcand
      · rw [← hx2]
        exact haccept.1
      · rw [← hx2]
        exact haccept.2.1
      · rw [← hx2]
        exact haccept.2.2
      · intro c hc h1 h2 h3
        rw [← hx2]
        exact hmin c hc ((okCand_iff blocks t_min? c hne htm).mpr ⟨h1, h2, h3⟩) h1

/-- C1 counterexample: with quantum `2/5` and a single block of `t_min = 1`,
the synchronizer returns `6/5` — the candidate *after* rounding up to the
next multiple of the quantum.  The raw candidate set described by the claim
is `[1, +infinity, +infinity, +infinity]`, and `6/5` is none of these, so the
selected duration is not "the first candidate" of the claimed candidate
set. -/
theorem C1_counterexample :
    synchronize [blkC1] Option.none true (2 / 5) =
      Option.some ((((6 : ℚ) / 5 : ℚ) : WithTop ℚ), 0) ∧
    candRaw [blkC1] Option.none 0 = ((1 : ℚ) : WithTop ℚ) ∧
    candRaw [blkC1] Option.none 1 = ⊤ ∧
    candRaw [blkC1] Option.none 2 = ⊤ ∧
    candRaw [blkC1] Option.none 3 = ⊤ ∧
    (((6 : ℚ) / 5 : ℚ) : WithTop ℚ) ≠ ((1 : ℚ) : WithTop ℚ) ∧
    (((6 : ℚ) / 5 : ℚ) : WithTop ℚ) ≠ (⊤ : WithTop ℚ) := by
  have hceil : ⌈(1 : ℚ) / (2 / 5)⌉ = 3 := by
    rw [show (1 : ℚ) / (2 / 5) = 5 / 2 by norm_num, Int.ceil_eq_iff]
    constructor <;> norm_num
  have h65 : (⌈(1 : ℚ) / (2 / 5)⌉ : ℚ) * (2 / 5) = 6 / 5 := by
    rw [hceil]
    norm_num
  have hpst : possibleTSync [blkC1] Option.none true (2 / 5) 0 =
      (((6 : ℚ) / 5 : ℚ) : WithTop ℚ) := by
    unfold possibleTSync
    rw [if_pos rfl, candRaw_lt_length _ _ _ (by simp)]
    show ((⌈(1 : ℚ) / (2 / 5)⌉ * (2 / 5) : ℚ) : WithTop ℚ) = _
    rw [h65]
  have hok : okCand [blkC1] Option.none (((6 : ℚ) / 5 : ℚ) : WithTop ℚ) = true := by
    unfold okCand Block.is_blocked blkC1
    simp [intervalHas, WithTop.coe_lt_coe, WithTop.coe_le_coe]
    norm_num
  have hscan : syncScan [blkC1] Option.none true (2 / 5) =
      Option.some (0, (((6 : ℚ) / 5 : ℚ) : WithTop ℚ)) := by
    unfold syncScan
    rw [show anyInterval [blkC1] Option.none = false from rfl, if_neg (by simp),
      candList_take]
    rw [show (List.range [blkC1].length).map
        (fun i => (i, possibleTSync [blkC1] Option.none true (2 / 5) i)) =
        [(0, possibleTSync [blkC1] Option.none true (2 / 5) 0)] from rfl]
    rw [show ([(0, possibleTSync [blkC1] Option.none true (2 / 5) 0)]).insertionSort
        candLE = [(0, possibleTSync [blkC1] Option.none true (2 / 5) 0)] from rfl]
    rw [show [blkC1].length - 1 = 0 from rfl, List.drop_zero, hpst]
    rw [@List.find?_cons_of_pos (ℕ × WithTop ℚ)
      (fun x => okCand [blkC1] Option.none x.2)
      (0, (((6 : ℚ) / 5 : ℚ) : WithTop ℚ)) [] hok]
  refine ⟨?_, rfl, rfl, rfl, rfl, ?_, ?_⟩
  · unfold synchronize
    rw [if_neg (by simp), hscan]
  · rw [ne_eq, WithTop.coe_eq_coe]
    norm_num
  · exact WithTop.coe_ne_top

/-- C1 witness: the amended theorem applied to a concrete two-DoF scan where
the largest `t_min` (the second DoF's `2`) is selected. -/
theorem C1_witness :
    ((blkW0.t_min : ℚ) : WithTop ℚ) ≤ (((2 : ℚ)) : WithTop ℚ) ∧
    intervalHas blkW1.a (((2 : ℚ)) : WithTop ℚ) = false := by
  have h := C1_synchronize [blkW0, blkW1] Option.none false 0 (((2 : ℚ)) : WithTop ℚ) 1
    (by decide) (by intro hh; exact absurd hh (by decide)) (by decide) (by decide)
    (by decide)
  exact ⟨h.2.1 blkW0 (by simp), (h.2.2.1 blkW1 (by simp)).1⟩

/-! ## Trajectory facade claims -/

/-- C8: for every sampling time `t ≥ duration`, `at_time` reports section 1
and each DoF's state is the zero-jerk (constant-acceleration) integration
from its terminal samples `(pf, vf, af)` over `t` minus that DoF's total
profile duration `brake.duration + t_sum[6]`. -/
theorem C8_at_time_after_end {n : ℕ} (profiles : Fin n → Profile)
    (duration : WithTop ℚ) (t : ℚ) (h : duration ≤ ((t : ℚ) : WithTop ℚ)) :
    (at_time profiles duration t).2 = 1 ∧
    ∀ d, (at_time profiles duration t).1 d =
      ((profiles d).pf + (profiles d).vf *
          (t - ((profiles d).brake.duration + (profiles d).t_sum 6)) +
        (profiles d).af *
          (t - ((profiles d).brake.duration + (profiles d).t_sum 6)) ^ 2 / 2,
       (profiles d).vf + (profiles d).af *
          (t - ((profiles d).brake.duration + (profiles d).t_sum 6)),
       (profiles d).af) := by
  unfold at_time
  rw [if_pos h]
  refine ⟨rfl, fun d => ?_⟩
  unfold Profile.integrate
  dsimp only
  norm_num

/-- C8 witness: a profile with brake duration 1 and `t_sum[6] = 2`,
sampled at `t = 5` past the trajectory end `3`. -/
theorem C8_witness :
    (at_time (fun _ : Fin 1 => mkP 2 1 Direction.UP) ((3 : ℚ) : WithTop ℚ) 5).2 = 1 ∧
    (at_time (fun _ : Fin 1 => mkP 2 1 Direction.UP) ((3 : ℚ) : WithTop ℚ) 5).1 0 =
      (0, 0, 0) := by
  have h := C8_at_time_after_end (fun _ : Fin 1 => mkP 2 1 Direction.UP)
    ((3 : ℚ) : WithTop ℚ) 5 (by decide)
  refine ⟨h.1, ?_⟩
  rw [h.2 0]
  norm_num [mkP]

/-- C4: in the time-synchronization loop, for a participating DoF (the
`TimeIfNecessary`-acts-as-`None` case excluded), if the required profile
duration `t_sync − brake.duration` is within `eps` of the Block's `t_min`,
`a->right` or `b->right` — tested in that order — then the corresponding
stored profile (`p_min`, `a->profile`, `b->profile`) is returned directly;
since the conclusion holds for every oracle `or`, Step 2 is not invoked. -/
theorem C4_step2_skip (or : Oracles) (d : ℕ) (eps : ℚ) (ci : ControlInterface)
    (sync : Synchronization) (args : KinematicArgs) (duration : WithTop ℚ)
    (block : Block) (p : Profile)
    (hsync : ¬(sync = Synchronization.TimeIfNecessary ∧ |args.vf| < eps ∧
               |args.af| < eps)) :
    (wNear (duration.map fun q => q - p.brake.duration) block.t_min eps = true →
       timeSyncDof or d eps ci sync args duration block p =
         Option.some block.p_min) ∧
    (wNear (duration.map fun q => q - p.brake.duration) block.t_min eps = false →
     ∀ I, block.a = Option.some I →
       wNear (duration.map fun q => q - p.brake.duration) I.right eps = true →
       timeSyncDof or d eps ci sync args duration block p =
         Option.some I.profile) ∧
    (wNear (duration.map fun q => q - p.brake.duration) block.t_min eps = false →
     (∀ I, block.a = Option.some I →
        wNear (duration.map fun q => q - p.brake.duration) I.right eps = false) →
     ∀ I, block.b = Option.some I →
       wNear (duration.map fun q => q - p.brake.duration) I.right eps = true →
       timeSyncDof or d eps ci sync args duration block p =
         Option.some I.profile) := by
  refine ⟨?_, ?_, ?_⟩
  · intro hmin
    unfold timeSyncDof
    rw [if_neg hsync, if_pos hmin]
  · intro hmin I hI hr
    unfold timeSyncDof
    have hcnd : block.a.isSome = true ∧
        wNear (duration.map fun q => q - p.brake.duration)
          (block.a.getD default).right eps = true :=
      ⟨by rw [hI]; rfl, by rw [hI, Option.getD_some]; exact hr⟩
    rw [if_neg hsync, if_neg (by rw [hmin]; exact Bool.false_ne_true),
      if_pos hcnd, hI, Option.getD_some]
  · intro hmin ha I hI hr
    unfold timeSyncDof
    have hna : ¬ (block.a.isSome = true ∧
        wNear (duration.map fun q => q - p.brake.duration)
          (block.a.getD default).right eps = true) := by
      rintro ⟨hsome, hnear⟩
      rcases hI2 : block.a with _ | I2
      · rw [hI2] at hsome
        exact absurd hsome (by simp)
      · rw [hI2, Option.getD_some] at hnear
        rw [ha I2 hI2] at hnear
        exact Bool.false_ne_true hnear
    have hcnd : block.b.isSome = true ∧
        wNear (duration.map fun q => q - p.brake.duration)
          (block.b.getD default).right eps = true :=
      ⟨by rw [hI]; rfl, by rw [hI, Option.getD_some]; exact hr⟩
    rw [if_neg hsync, if_neg (by rw [hmin]; exact Bool.false_ne_true),
      if_neg hna, if_pos hcnd, hI, Option.getD_some]

/-- C4 witness: `t_sync = 10`, brake duration 1, `t_min = 9`: the profile
duration `9` matches `t_min` within `eps = 1` and `p_min` is reused. -/
theorem C4_witness :
    timeSyncDof oraCommon 0 1 ControlInterface.Position Synchronization.Time
      argsCommon ((10 : ℚ) : WithTop ℚ) blkC4 (mkP 2 1 Direction.UP) =
      Option.some blkC4.p_min := by
  refine (C4_step2_skip oraCommon 0 1 ControlInterface.Position Synchronization.Time
    argsCommon ((10 : ℚ) : WithTop ℚ) blkC4 (mkP 2 1 Direction.UP) ?_).1 ?_
  · rintro ⟨hs, _⟩
    exact absurd hs (by decide)
  · show wNear (Option.some ((10 : ℚ) - (mkP 2 1 Direction.UP).brake.duration)) 9 1
      = true
    unfold wNear
    rw [decide_eq_true_eq]
    norm_num [mkP, blkC4]

theorem contNeDiscEq :
    (DurationDiscretization.Continuous = DurationDiscretization.Discrete) = False :=
  eq_false fun h => DurationDiscretization.noConfusion h

theorem timeNeNoneEq : (Synchronization.Time = Synchronization.None) = False :=
  eq_false fun h => Synchronization.noConfusion h

theorem timeNePhaseEq : (Synchronization.Time = Synchronization.Phase) = False :=
  eq_false fun h => Synchronization.noConfusion h

/-- C3: a concrete run violating `independent_min_duration ≤ duration`.
The brake solver requests a brake of duration 1 and Step 1 yields a profile
with `t_sum[6] = 2`, so the Block's `t_min = 2 + 1 = 3` (already including
the brake).  The code sets
`independent_min_durations[dof] = p_min.brake.duration + t_min = 4`,
counting the brake twice, while the committed duration is `t_min = 3`:
the reported independent minimum duration exceeds the trajectory duration,
contradicting the specified invariant. -/
theorem C3_failing :
    (calculate oraCommon inpC3 1 0 false (stEmpty 1)).1 = Result.Working ∧
    (calculate oraCommon inpC3 1 0 false (stEmpty 1)).2.duration =
      ((3 : ℚ) : WithTop ℚ) ∧
    (calculate oraCommon inpC3 1 0 false (stEmpty 1)).2.independent_min_durations 0
      = 4 ∧
    ¬ ((((calculate oraCommon inpC3 1 0 false
            (stEmpty 1)).2.independent_min_durations 0 : ℚ) : WithTop ℚ) ≤
        (calculate oraCommon inpC3 1 0 false (stEmpty 1)).2.duration) := by
  refine ⟨?_, ?_, ?_, ?_⟩ <;>
    norm_num [calculate, calculateRest, step1All, step1Dof, applyPass1, applySyncProfile,
      brakeIntegrate, Profile.integrate, kinArgs, resControl, resSync,
      resMinVelocity, resMinAcceleration, oraCommon, inpC3, stEmpty, synchronize,
      timeSyncLoop, phaseLoop, is_input_collinear, colinFirstPass, colinSecondPass,
      Block.ofProfile, profAt, qAt, Fin.forall_fin_one, Fin.exists_fin_one,
      List.ofFn_succ, List.ofFn_zero, WithTop.coe_le_coe, WithTop.coe_lt_coe,
      WithTop.coe_eq_coe, contNeDiscEq, timeNeNoneEq, timeNePhaseEq]
  all_goals decide

theorem foldl_err_inv {α β : Type} (f : (β × Option Result) → α → (β × Option Result))
    (hf : ∀ acc a,
      (∀ r, acc.2 = Option.some r → r = Result.ErrorSynchronizationCalculation) →
      ∀ r, (f acc a).2 = Option.some r → r = Result.ErrorSynchronizationCalculation) :
    ∀ (L : List α) (acc : β × Option Result),
      (∀ r, acc.2 = Option.some r → r = Result.ErrorSynchronizationCalculation) →
      ∀ r, (L.foldl f acc).2 = Option.some r →
        r = Result.ErrorSynchronizationCalculation := by
  intro L
  induction L with
  | nil =>
    intro acc hacc r h
    exact hacc r h
  | cons a L ih =>
    intro acc hacc r h
    exact ih (f acc a) (hf acc a hacc) r h

theorem timeSyncLoop_error {n : ℕ} (or : Oracles) (inp : InputParameter n) (eps : ℚ)
    (syncModes : Fin n → Synchronization) (ciModes : Fin n → ControlInterface)
    (limiting : ℤ) (duration : WithTop ℚ) (blocks : Fin n → Block)
    (argsAt : Fin n → KinematicArgs) (profiles0 : Fin n → Profile) (r : Result)
    (h : (timeSyncLoop or inp eps syncModes ciModes limiting duration blocks argsAt
        profiles0).2 = Option.some r) :
    r = Result.ErrorSynchronizationCalculation := by
  unfold timeSyncLoop at h
  refine foldl_err_inv _ ?_ (List.finRange n) (profiles0, Option.none)
    (by intro r' hr'; exact absurd hr' (by simp)) r h
  intro acc d hacc r' hr'
  by_cases h1 : acc.2.isSome = true
  · rw [if_pos h1] at hr'
    exact hacc _ hr'
  · rw [if_neg h1] at hr'
    by_cases h2 : inp.enabled d = false ∨ ((d : ℕ) : ℤ) = limiting
        ∨ syncModes d = Synchronization.None
    · rw [if_pos h2] at hr'
      exact hacc _ hr'
    · rw [if_neg h2] at hr'
      rcases htd : timeSyncDof or d eps (ciModes d) (syncModes d) (argsAt d) duration
          (blocks d) (acc.1 d) with _ | p2
      · rw [htd] at hr'
        exact (Option.some.inj hr').symm
      · rw [htd] at hr'
        exact absurd hr' (by simp)

theorem calculateRest_fst_ne {n : ℕ} (or : Oracles) (inp : InputParameter n) (eps : ℚ)
    (st1 : TrajState n) (limiting : ℤ) (tsync : WithTop ℚ) (profs1 : Fin n → Profile) :
    (calculateRest or inp eps st1 limiting tsync profs1).1 ≠
      Result.ErrorTrajectoryDuration := by
  unfold calculateRest
  dsimp only
  repeat' split
  all_goals try simp
  all_goals rename_i r heq
  all_goals have hr := timeSyncLoop_error _ _ _ _ _ _ _ _ _ _ r heq
  all_goals simp [hr]

/-- C9: `calculate` returns `ErrorTrajectoryDuration` exactly when the caller
opted into the maximal-duration check and the synchronized duration (the
value produced by a successful Step 1 pass and a successful synchronization)
exceeds `7.6e3`; with the check disabled this error is never returned,
whatever the duration. -/
theorem C9_error_trajectory_duration {n : ℕ} (or : Oracles) (inp : InputParameter n)
    (eps delta_time : ℚ) (flag : Bool) (st : TrajState n) :
    (calculate or inp eps delta_time flag st).1 = Result.ErrorTrajectoryDuration ↔
      (flag = true ∧ ∃ out, step1All or inp st = Option.some out ∧
        ∃ t i, synchronize (List.ofFn fun d => (out d).block) inp.minimum_duration
            (decide (inp.duration_discretization = DurationDiscretization.Discrete))
            delta_time = Option.some (t, i) ∧ ((7600 : ℚ) : WithTop ℚ) < t) := by
  unfold calculate
  cases hs1 : step1All or inp st with
  | none =>
    constructor
    · intro h
      simp at h
    · rintro ⟨-, out, hout, -⟩
      exact absurd hout (by simp)
  | some out =>
    dsimp only [applyPass1]
    cases hsync : synchronize (List.ofFn fun d => (out d).block) inp.minimum_duration
        (decide (inp.duration_discretization = DurationDiscretization.Discrete))
        delta_time with
    | none =>
      constructor
      · intro h
        simp at h
      · rintro ⟨-, out', hout', t, i, hsync', -⟩
        obtain rfl : out = out' := Option.some.inj hout'
        rw [hsync] at hsync'
        exact absurd hsync' (by simp)
    | some ti =>
      dsimp only
      by_cases hflag : flag = true ∧ ((7600 : ℚ) : WithTop ℚ) < ti.1
      · rw [if_pos hflag]
        constructor
        · intro _
          exact ⟨hflag.1, out, rfl, ti.1, ti.2, by rw [hsync], hflag.2⟩
        · intro _
          rfl
      · rw [if_neg hflag]
        constructor
        · intro h
          exact absurd h (calculateRest_fst_ne _ _ _ _ _ _ _)
        · rintro ⟨hfl, out', hout', t, i, hsync', hgt⟩
          obtain rfl : out = out' := Option.some.inj hout'
          rw [hsync] at hsync'
          obtain rfl : ti = (t, i) := Option.some.inj hsync'
          exact absurd ⟨hfl, hgt⟩ hflag

theorem step1Dof_oracle_congr {n : ℕ} (or or2 : Oracles) (inp : InputParameter n)
    (st : TrajState n) (k : Fin n)
    (h : inp.enabled k = false ∨
      (or.brakePos (k : ℕ) = or2.brakePos (k : ℕ) ∧
       or.brakeVel (k : ℕ) = or2.brakeVel (k : ℕ) ∧
       or.step1Pos (k : ℕ) = or2.step1Pos (k : ℕ) ∧
       or.step1Vel (k : ℕ) = or2.step1Vel (k : ℕ))) :
    step1Dof or inp st k = step1Dof or2 inp st k := by
  unfold step1Dof
  by_cases he : inp.enabled k = false
  · rw [if_pos he, if_pos he]
  · obtain h | ⟨h1, h2, h3, h4⟩ := h
    · exact absurd h he
    · rw [if_neg he, if_neg he, h1, h2, h3, h4]

theorem timeSyncDof_oracle_congr (or or2 : Oracles) (k : ℕ) (eps : ℚ)
    (ci : ControlInterface) (sync : Synchronization) (args : KinematicArgs)
    (duration : WithTop ℚ) (block : Block) (p : Profile)
    (h5 : or.step2Pos k = or2.step2Pos k) (h6 : or.step2Vel k = or2.step2Vel k) :
    timeSyncDof or k eps ci sync args duration block p =
      timeSyncDof or2 k eps ci sync args duration block p := by
  unfold timeSyncDof
  rw [h5, h6]

theorem timeSyncLoop_oracle_congr {n : ℕ} (or or2 : Oracles) (inp : InputParameter n)
    (hagree : ∀ k : Fin n, inp.enabled k = false ∨
      (or.step2Pos (k : ℕ) = or2.step2Pos (k : ℕ) ∧
       or.step2Vel (k : ℕ) = or2.step2Vel (k : ℕ))) :
    timeSyncLoop or inp = timeSyncLoop or2 inp := by
  funext eps syncModes ciModes limiting duration blocks argsAt profiles0
  unfold timeSyncLoop
  refine List.foldl_ext _ _ _ ?_
  intro acc k _
  by_cases hs : acc.2.isSome = true
  · rw [if_pos hs, if_pos hs]
  · rw [if_neg hs, if_neg hs]
    by_cases hcond : inp.enabled k = false ∨ ((k : ℕ) : ℤ) = limiting
        ∨ syncModes k = Synchronization.None
    · rw [if_pos hcond, if_pos hcond]
    · obtain he | ⟨h5, h6⟩ := hagree k
      · exact absurd (Or.inl he) hcond
      · rw [if_neg hcond, if_neg hcond,
          timeSyncDof_oracle_congr or or2 (k : ℕ) eps (ciModes k) (syncModes k)
            (argsAt k) duration (blocks k) (acc.1 k) h5 h6]

theorem phaseLoop_oracle_congr {n : ℕ} (or or2 : Oracles) (inp : InputParameter n)
    (hagree : ∀ k : Fin n, inp.enabled k = false ∨
      or.checkPhase (k : ℕ) = or2.checkPhase (k : ℕ)) :
    phaseLoop or inp = phaseLoop or2 inp := by
  funext syncModes limiting duration nmj profiles0
  unfold phaseLoop
  refine List.foldl_ext _ _ _ ?_
  intro acc k _
  by_cases hcond : inp.enabled k = false ∨ ((k : ℕ) : ℤ) = limiting
      ∨ syncModes k ≠ Synchronization.Phase
  · rw [if_pos hcond, if_pos hcond]
  · obtain he | h7 := hagree k
    · exact absurd (Or.inl he) hcond
    · rw [if_neg hcond, if_neg hcond, h7]

/-- C10: for a disabled DoF `d`, (a) the first pass only writes the terminal
samples (`pf`, `vf`, `af` become the current state) and zeroes `t_sum[6]`,
keeping the stale brake record, Block, start samples, independent minimum
duration and per-DoF modes; (b) `calculate` never invokes the brake, Step 1,
Step 2 or phase-check solvers for `d`: its outcome is unchanged under any
replacement of the solvers at index `d`; and (c) provided the stale brake
record is empty (`brake.duration = 0`), sampling the stored profile of `d`
at any time `t ≥ 0` before the trajectory end returns the current state
evolved under constant acceleration (here with zero jerk from
`(position, velocity, acceleration)`, so position
`p + v·t + a·t²/2`).  The brake-record proviso in (c) is needed: a stale
brake is replayed by `at_time` (see the counterexample). -/
theorem C10_disabled_dof {n : ℕ} (or or2 : Oracles) (inp : InputParameter n)
    (eps delta_time : ℚ) (flag : Bool) (st : TrajState n) (d : Fin n)
    (henabled : inp.enabled d = false)
    (hagree : ∀ k : ℕ, k ≠ (d : ℕ) →
      or.brakePos k = or2.brakePos k ∧ or.brakeVel k = or2.brakeVel k ∧
      or.step1Pos k = or2.step1Pos k ∧ or.step1Vel k = or2.step1Vel k ∧
      or.step2Pos k = or2.step2Pos k ∧ or.step2Vel k = or2.step2Vel k ∧
      or.checkPhase k = or2.checkPhase k) :
    step1Dof or inp st d =
      Option.some
        { profile :=
            { st.profiles d with
              pf := inp.current_position d,
              vf := inp.current_velocity d,
              af := inp.current_acceleration d,
              t_sum := Function.update (st.profiles d).t_sum 6 0 },
          block := st.blocks d, p0 := st.p0s d, v0 := st.v0s d, a0 := st.a0s d,
          independent := st.independent_min_durations d,
          syncMode := st.inp_per_dof_synchronization d,
          controlMode := st.inp_per_dof_control_interface d } ∧
    calculate or inp eps delta_time flag st =
      calculate or2 inp eps delta_time flag st ∧
    ((st.profiles d).brake.duration = 0 →
      ∀ (profiles : Fin n → Profile) (duration : WithTop ℚ) (t : ℚ),
        profiles d =
          { st.profiles d with
            pf := inp.current_position d,
            vf := inp.current_velocity d,
            af := inp.current_acceleration d,
            t_sum := Function.update (st.profiles d).t_sum 6 0 } →
        0 ≤ t → ¬ duration ≤ ((t : ℚ) : WithTop ℚ) →
        (at_time profiles duration t).1 d =
          Profile.integrate t (inp.current_position d) (inp.current_velocity d)
            (inp.current_acceleration d) 0) := by
  have hdisj : ∀ k : Fin n, inp.enabled k = false ∨
      (or.brakePos (k : ℕ) = or2.brakePos (k : ℕ) ∧
       or.brakeVel (k : ℕ) = or2.brakeVel (k : ℕ) ∧
       or.step1Pos (k : ℕ) = or2.step1Pos (k : ℕ) ∧
       or.step1Vel (k : ℕ) = or2.step1Vel (k : ℕ) ∧
       or.step2Pos (k : ℕ) = or2.step2Pos (k : ℕ) ∧
       or.step2Vel (k : ℕ) = or2.step2Vel (k : ℕ) ∧
       or.checkPhase (k : ℕ) = or2.checkPhase (k : ℕ)) := by
    intro k
    by_cases hk : k = d
    · exact Or.inl (hk ▸ henabled)
    · exact Or.inr (hagree (k : ℕ) fun h => hk (Fin.val_injective h))
  refine ⟨?_, ?_, ?_⟩
  · unfold step1Dof
    rw [if_pos henabled]
  · have h1 : step1Dof or inp = step1Dof or2 inp := by
      funext st' k
      exact step1Dof_oracle_congr or or2 inp st' k
        ((hdisj k).imp id fun hc => ⟨hc.1, hc.2.1, hc.2.2.1, hc.2.2.2.1⟩)
    have hSA : step1All or inp = step1All or2 inp := by
      funext st'
      unfold step1All
      rw [h1]
    have hPL : phaseLoop or inp = phaseLoop or2 inp :=
      phaseLoop_oracle_congr or or2 inp fun k =>
        (hdisj k).imp id fun hc => hc.2.2.2.2.2.2
    have hTS : timeSyncLoop or inp = timeSyncLoop or2 inp :=
      timeSyncLoop_oracle_congr or or2 inp fun k =>
        (hdisj k).imp id fun hc => ⟨hc.2.2.2.2.1, hc.2.2.2.2.2.1⟩
    have hCR : calculateRest or inp = calculateRest or2 inp := by
      funext eps' st1 limiting tsync profs1
      unfold calculateRest
      rw [hPL, hTS]
    unfold calculate
    rw [hSA, hCR]
  · intro hbrake profiles duration t hprof ht hdur
    unfold at_time
    rw [if_neg hdur]
    dsimp only
    rw [hprof]
    unfold atTimeDof
    dsimp only
    simp only [hbrake, Function.update_same]
    norm_num
    intro hlt
    exact absurd hlt (not_lt.mpr ht)

theorem step1Dof_stC10_eq :
    step1Dof oraCommon inpC10 stC10 0 =
      Option.some
        { profile :=
            { stC10.profiles 0 with
              pf := inpC10.current_position 0,
              vf := inpC10.current_velocity 0,
              af := inpC10.current_acceleration 0,
              t_sum := Function.update (stC10.profiles 0).t_sum 6 0 },
          block := stC10.blocks 0, p0 := stC10.p0s 0, v0 := stC10.v0s 0,
          a0 := stC10.a0s 0,
          independent := stC10.independent_min_durations 0,
          syncMode := stC10.inp_per_dof_synchronization 0,
          controlMode := stC10.inp_per_dof_control_interface 0 } := by
  unfold step1Dof
  rw [if_pos (show inpC10.enabled 0 = false from rfl)]

set_option maxHeartbeats 1600000 in
set_option maxRecDepth 8192 in
/-- C10 counterexample: a disabled DoF whose profile still holds a stale
brake record (duration 1, jerk 6) from an earlier call.  After the first
pass the stored profile keeps that brake record, and sampling at
`t = 1/2` (inside the trajectory of duration 2) replays the stale brake
segment: the result is `(1/8, 3/4, 3)`, not the constant-acceleration
evolution `(5, 0, 0)` of the current state `(5, 0, 0)` claimed by the
spec sentence. -/
theorem C10_counterexample :
    inpC10.enabled 0 = false ∧
    ((step1Dof oraCommon inpC10 stC10 0).getD default).profile.brake.duration = 1 ∧
    ¬ (((2 : ℚ) : WithTop ℚ) ≤ ((1 / 2 : ℚ) : WithTop ℚ)) ∧
    (at_time (fun _ : Fin 1 =>
        ((step1Dof oraCommon inpC10 stC10 0).getD default).profile)
      ((2 : ℚ) : WithTop ℚ) (1 / 2)).1 0 = (1 / 8, 3 / 4, 3) ∧
    Profile.integrate (1 / 2) (inpC10.current_position 0) (inpC10.current_velocity 0)
      (inpC10.current_acceleration 0) 0 = (5, 0, 0) ∧
    (1 / 8, 3 / 4, (3 : ℚ)) ≠ ((5 : ℚ), (0 : ℚ), (0 : ℚ)) := by
  refine ⟨by decide, ?_, ?_, ?_, ?_, by norm_num⟩
  · rw [step1Dof_stC10_eq, Option.getD_some]
    norm_num [stC10, pStale]
  · rw [WithTop.coe_le_coe]
    norm_num
  · rw [step1Dof_stC10_eq, Option.getD_some]
    unfold at_time
    rw [if_neg (by rw [WithTop.coe_le_coe]; norm_num)]
    dsimp only
    unfold atTimeDof
    split
    · norm_num [stC10, stEmpty, pStale, Profile.integrate]
    · rename_i h
      exact absurd ⟨by norm_num [stC10, stEmpty, pStale],
        by norm_num [stC10, stEmpty, pStale]⟩ h
  · show Profile.integrate (1 / 2) 5 0 0 0 = (5, 0, 0)
    norm_num [Profile.integrate]

/-- C10 witness: the single DoF of `inpC10` is disabled; `calculate` from the
fresh state is oblivious to the oracle replacement `oraC10b` (which breaks
the Step-1 solver at index 0), and sampling the pass-1 profile at `t = 1/2`
inside a trajectory of duration 2 yields the constant-acceleration evolution
of the current state (the fresh state has no stale brake record). -/
theorem C10_witness :
    inpC10.enabled 0 = false ∧
    calculate oraCommon inpC10 1 0 false (stEmpty 1) =
      calculate oraC10b inpC10 1 0 false (stEmpty 1) ∧
    (at_time (fun _ : Fin 1 =>
        ((step1Dof oraCommon inpC10 (stEmpty 1) 0).getD default).profile)
      ((2 : ℚ) : WithTop ℚ) (1 / 2)).1 0 =
      Profile.integrate (1 / 2) (inpC10.current_position 0)
        (inpC10.current_velocity 0) (inpC10.current_acceleration 0) 0 := by
  have hagree : ∀ k : ℕ, k ≠ ((0 : Fin 1) : ℕ) →
      oraCommon.brakePos k = oraC10b.brakePos k ∧
      oraCommon.brakeVel k = oraC10b.brakeVel k ∧
      oraCommon.step1Pos k = oraC10b.step1Pos k ∧
      oraCommon.step1Vel k = oraC10b.step1Vel k ∧
      oraCommon.step2Pos k = oraC10b.step2Pos k ∧
      oraCommon.step2Vel k = oraC10b.step2Vel k ∧
      oraCommon.checkPhase k = oraC10b.checkPhase k := by
    intro k hk
    have hk0 : ¬ k = 0 := by simpa using hk
    refine ⟨rfl, rfl, ?_, rfl, rfl, rfl, rfl⟩
    funext args p
    show oraCommon.step1Pos k args p =
      (if k = 0 then Option.none else oraCommon.step1Pos k args p)
    rw [if_neg hk0]
  have h := C10_disabled_dof oraCommon oraC10b inpC10 1 0 false (stEmpty 1) 0
    (by decide) hagree
  refine ⟨by decide, h.2.1, ?_⟩
  refine h.2.2 rfl _ _ _ ?_ (by norm_num) ?_
  · rw [h.1, Option.getD_some]
  · rw [WithTop.coe_le_coe]
    norm_num

end Ruckig
